import Mathlib

/-!
# Verification of the SENTINEL-v2 Composite Signal Prediction & Backtesting Engine

Shallow embedding of the prediction core of the repository:
`src/analysis/technical.py`, `src/analysis/patterns.py`,
`src/analysis/advanced_indicators.py` and `src/analysis/predictor.py`.

Modelling conventions:
* Python/numpy floats are idealised as exact rationals (`ℚ`); `np.nan` is
  `Option.none`, and comparisons against NaN are `false`, as in Python.
* `Python round(x, n)` (banker's rounding) is `roundTo x n`
  (round half to even, exact over `ℚ`).
* Bar dates are integers (days); yfinance daily bars sit at midnight, so
  `index <= cutoff` and `index < cutoff + 1 day` select the same bars.
* The data source (`yf.download(ticker, start, end)`) is modelled as
  filtering the ticker's full bar history to `start ≤ date < end`.
* Reason strings keep the fixed text of the source; the interpolated
  numeric parts (pure display) are omitted.
* `calc_atr` contributes no score or reason to the momentum aggregate
  (it only fills an INFO entry in the signal dict), so it is omitted.
-/

namespace Sentinel

/-- Python `round` to an integer: round half to even (banker's rounding),
idealised exactly over `ℚ`. -/
def roundHalfEven (x : ℚ) : ℤ :=
  if x - (⌊x⌋ : ℚ) < 1/2 then ⌊x⌋
  else if 1/2 < x - (⌊x⌋ : ℚ) then ⌊x⌋ + 1
  else if ⌊x⌋ % 2 = 0 then ⌊x⌋ else ⌊x⌋ + 1

/-- Python `round(x, n)`. -/
def roundTo (x : ℚ) (n : ℕ) : ℚ :=
  (roundHalfEven (x * 10 ^ n) : ℚ) / 10 ^ n

/-- Python `max(min(x, 1.0), -1.0)`. -/
def clampUnit (x : ℚ) : ℚ := max (min x 1) (-1)

/-- Python `1 if s > 0 else (-1 if s < 0 else 0)`. -/
def sgnQ (x : ℚ) : ℚ := if 0 < x then 1 else if x < 0 then -1 else 0

/-- Arithmetic mean of a list (numpy / pandas `mean`). -/
def listMean (xs : List ℚ) : ℚ := xs.sum / (xs.length : ℚ)

/-- Sample variance (`ddof = 1`), the square of pandas `rolling(..).std()`. -/
def sampleVar (xs : List ℚ) : ℚ :=
  (xs.map (fun x => (x - listMean xs) ^ 2)).sum / ((xs.length : ℚ) - 1)

/-- The last `k` elements of a list (`prices.iloc[-k:]`). -/
def lastN (k : ℕ) (xs : List ℚ) : List ℚ := xs.drop (xs.length - k)

/-- `xs.iloc[-1-k]` with a default. -/
def idxFromLast (xs : List ℚ) (k : ℕ) : ℚ := xs.getD (xs.length - 1 - k) 0

/-- `xs.iloc[-1]` with default 0. -/
def lastQ (xs : List ℚ) : ℚ := xs.getLastD 0

/-- `xs.iloc[-1]` of a series with NaNs. -/
def lastO (xs : List (Option ℚ)) : Option ℚ := xs.getLastD none

/-- `xs.iloc[-1-k]` of a series with NaNs. -/
def idxFromLastO (xs : List (Option ℚ)) (k : ℕ) : Option ℚ :=
  xs.getD (xs.length - 1 - k) none

/-- Python `a < b` where `a` may be NaN (NaN comparisons are false). -/
def oLT (a : Option ℚ) (b : ℚ) : Bool :=
  match a with | some x => decide (x < b) | none => false

/-- Python `a > b` where `a` may be NaN. -/
def oGT (a : Option ℚ) (b : ℚ) : Bool :=
  match a with | some x => decide (b < x) | none => false

/-- Python `a <= b` where `a` may be NaN. -/
def oLE (a : Option ℚ) (b : ℚ) : Bool :=
  match a with | some x => decide (x ≤ b) | none => false

/-- Python `a >= b` where `a` may be NaN. -/
def oGE (a : Option ℚ) (b : ℚ) : Bool :=
  match a with | some x => decide (b ≤ x) | none => false

/-- Python `b > a` where both may be NaN (used for `k_val > d_val`). -/
def ooLT (a b : Option ℚ) : Bool :=
  match a, b with | some x, some y => decide (x < y) | _, _ => false

/-- `series.diff()`: first entry NaN, then consecutive differences. -/
def diffs : List ℚ → List (Option ℚ)
  | [] => []
  | x :: rest => none :: go x rest
where
  go : ℚ → List ℚ → List (Option ℚ)
  | _, [] => []
  | p, y :: t => some (y - p) :: go y t

/-- Running cumulative sum (pandas `cumsum`). -/
def cumsum (xs : List ℚ) : List ℚ := go 0 xs
where
  go : ℚ → List ℚ → List ℚ
  | _, [] => []
  | acc, x :: t => (acc + x) :: go (acc + x) t

/-- The trailing window of width `w` ending at position `t` (positions
`t+1-w .. t`); shorter at the start of the series. -/
def windowAt (w : ℕ) (xs : List ℚ) (t : ℕ) : List ℚ :=
  (xs.take (t + 1)).drop (t + 1 - w)

/-- pandas `rolling(window=w).mean()` (min_periods defaults to `w`). -/
def rollingMean (w : ℕ) (xs : List ℚ) : List (Option ℚ) :=
  (List.range xs.length).map fun t =>
    if w ≤ t + 1 then some (listMean (windowAt w xs t)) else none

/-- pandas `rolling(window=w).min()`. -/
def rollingMin (w : ℕ) (xs : List ℚ) : List (Option ℚ) :=
  (List.range xs.length).map fun t =>
    if w ≤ t + 1 then ((windowAt w xs t).min?) else none

/-- pandas `rolling(window=w).max()`. -/
def rollingMax (w : ℕ) (xs : List ℚ) : List (Option ℚ) :=
  (List.range xs.length).map fun t =>
    if w ≤ t + 1 then ((windowAt w xs t).max?) else none

/-- pandas `rolling(window=w).mean()` over a series with NaNs: a full
window of non-NaN values is required (min_periods = w). -/
def rollingMeanOpt (w : ℕ) (xs : List (Option ℚ)) : List (Option ℚ) :=
  (List.range xs.length).map fun t =>
    if w ≤ t + 1 then
      let win := (xs.take (t + 1)).drop (t + 1 - w)
      if win.all Option.isSome then some (listMean (win.filterMap id)) else none
    else none

/-- Worker for `ewmAdj`: carries the weighted numerator and the weight sum
of pandas `ewm(alpha=a, adjust=True)`, plus the observation count for
`min_periods`. -/
def ewmAdjGo (a : ℚ) (minp : ℕ) : ℚ → ℚ → ℕ → List ℚ → List (Option ℚ)
  | _, _, _, [] => []
  | num, den, cnt, x :: rest =>
    let num2 := x + (1 - a) * num
    let den2 := 1 + (1 - a) * den
    (if minp ≤ cnt + 1 then some (num2 / den2) else none) ::
      ewmAdjGo a minp num2 den2 (cnt + 1) rest

/-- pandas `ewm(alpha=a, min_periods=minp).mean()` (adjust=True, the
default), on a NaN-free input series. -/
def ewmAdj (a : ℚ) (minp : ℕ) (xs : List ℚ) : List (Option ℚ) :=
  ewmAdjGo a minp 0 0 0 xs

/-- Worker for `ewmRec`. -/
def ewmRecGo (a : ℚ) : ℚ → List ℚ → List ℚ
  | _, [] => []
  | prev, x :: rest =>
    let y := (1 - a) * prev + a * x
    y :: ewmRecGo a y rest

/-- pandas `ewm(span=s, adjust=False).mean()` with `a = 2/(s+1)`:
`y_0 = x_0`, `y_t = (1-a) y_(t-1) + a x_t`. -/
def ewmRec (a : ℚ) : List ℚ → List ℚ
  | [] => []
  | x :: rest => x :: ewmRecGo a x rest

/-! ## `src/analysis/technical.py` -/

/-- `gain = delta.where(delta > 0, 0.0)` over `delta = series.diff()`
(the leading NaN becomes 0 because the condition is false on NaN). -/
def gainList (xs : List ℚ) : List ℚ :=
  (diffs xs).map fun o =>
    match o with | some d => if 0 < d then d else 0 | none => 0

/-- `loss = -delta.where(delta < 0, 0.0)`. -/
def lossList (xs : List ℚ) : List ℚ :=
  (diffs xs).map fun o =>
    match o with | some d => if d < 0 then -d else 0 | none => 0

/-- `avg_gain = gain.ewm(alpha=1/period, min_periods=period).mean()`. -/
def avgGain (period : ℕ) (xs : List ℚ) : List (Option ℚ) :=
  ewmAdj (1 / (period : ℚ)) period (gainList xs)

/-- `avg_loss = loss.ewm(alpha=1/period, min_periods=period).mean()`. -/
def avgLoss (period : ℕ) (xs : List ℚ) : List (Option ℚ) :=
  ewmAdj (1 / (period : ℚ)) period (lossList xs)

/-- `calc_rsi`: `rs = avg_gain / avg_loss.replace(0, nan)`;
`rsi = 100 - 100/(1+rs)`.  A zero average loss yields NaN. -/
def calc_rsi (xs : List ℚ) (period : ℕ := 14) : List (Option ℚ) :=
  List.zipWith
    (fun g? l? =>
      match g?, l? with
      | some g, some l => if l = 0 then none else some (100 - 100 / (1 + g / l))
      | _, _ => none)
    (avgGain period xs) (avgLoss period xs)

/-- `calc_macd` with fast=12, slow=26, signal=9 (span EMAs, adjust=False):
returns (macd line, signal line, histogram). -/
def calc_macd (xs : List ℚ) : List ℚ × List ℚ × List ℚ :=
  let emaFast := ewmRec (2/13) xs
  let emaSlow := ewmRec (2/27) xs
  let macdLine := List.zipWith (fun a b => a - b) emaFast emaSlow
  let signalLine := ewmRec (1/5) macdLine
  (macdLine, signalLine, List.zipWith (fun a b => a - b) macdLine signalLine)

/-- RSI sub-rule of `_calc_technical_score` (the score it adds):
`<30 → +2, <40 → +1, >70 → -2, >60 → -1, else 0`; a NaN RSI falls through
every comparison into the neutral branch. -/
def rsiScore (close : List ℚ) : ℚ :=
  match lastO (calc_rsi close) with
  | none => 0
  | some v =>
    if v < 30 then 2
    else if v < 40 then 1
    else if 70 < v then -2
    else if 60 < v then -1
    else 0

/-- Reason string of the RSI sub-rule. -/
def rsiReason (close : List ℚ) : String :=
  match lastO (calc_rsi close) with
  | none => "RSI neutral"
  | some v =>
    if v < 30 then "RSI oversold"
    else if v < 40 then "RSI low"
    else if 70 < v then "RSI overbought"
    else if 60 < v then "RSI high"
    else "RSI neutral"

/-- MACD sub-rule of `_calc_technical_score`: bullish +1 (+1 more if the
histogram strengthens), bearish -1 (-1 more if it weakens). -/
def macdScore (close : List ℚ) : ℚ :=
  let r := calc_macd close
  let macdLine := r.1
  let hist := r.2.2
  if lastQ r.2.1 < lastQ macdLine then
    if idxFromLast hist 1 < lastQ hist then 2 else 1
  else
    if lastQ hist < idxFromLast hist 1 then -2 else -1

/-- Reason string of the MACD sub-rule. -/
def macdReason (close : List ℚ) : String :=
  let r := calc_macd close
  let hist := r.2.2
  if lastQ r.2.1 < lastQ r.1 then
    if idxFromLast hist 1 < lastQ hist then "MACD bullish and strengthening"
    else "MACD bullish"
  else
    if lastQ hist < idxFromLast hist 1 then "MACD bearish and weakening"
    else "MACD bearish"

/-- Bollinger sub-rule of `_calc_technical_score`.  The source computes
`bb_pos = (last - lower)/(upper - lower)` with `upper/lower = m ± 2σ`,
`σ = rolling(20).std()` (sample std), and scores `+1.5` when
`bb_pos < 0.2`, `-1.5` when `bb_pos > 0.8`, else `0` (also `0` when the
band has zero or undefined width, where `bb_pos` is set to `0.5`).
Over the reals `bb_pos < 0.2  ⟺  m - last > 1.2 σ
⟺  m - last > 0 ∧ (m - last)² > 1.44 v` (σ² = v > 0), and symmetrically
for `bb_pos > 0.8`; the embedding uses these square-free-of-sqrt forms,
which are exactly equivalent and stay inside `ℚ`. -/
def bollScore (close : List ℚ) : ℚ :=
  if close.length < 20 then 0
  else
    let w := lastN 20 close
    let m := listMean w
    let v := sampleVar w
    let last := lastQ close
    if 0 < v ∧ 0 < m - last ∧ (36/25) * v < (m - last) ^ 2 then 3/2
    else if 0 < v ∧ 0 < last - m ∧ (36/25) * v < (last - m) ^ 2 then -(3/2)
    else 0

/-- Reasons of the Bollinger sub-rule (at most one). -/
def bollReasons (close : List ℚ) : List String :=
  if close.length < 20 then []
  else
    let w := lastN 20 close
    let m := listMean w
    let v := sampleVar w
    let last := lastQ close
    if 0 < v ∧ 0 < m - last ∧ (36/25) * v < (m - last) ^ 2 then
      ["Near lower Bollinger"]
    else if 0 < v ∧ 0 < last - m ∧ (36/25) * v < (last - m) ^ 2 then
      ["Near upper Bollinger"]
    else []

/-- Moving-average sub-rule: `MA5 > MA25 → +1 else -1` (a NaN MA25, i.e.
fewer than 25 bars, makes the comparison false, giving `-1`). -/
def maScore (close : List ℚ) : ℚ :=
  let ma5 := lastO (rollingMean 5 close)
  let ma25 := lastO (rollingMean 25 close)
  if ooLT ma25 ma5 then 1 else -1

/-- Reason string of the moving-average sub-rule. -/
def maReason (close : List ℚ) : String :=
  let ma5 := lastO (rollingMean 5 close)
  let ma25 := lastO (rollingMean 25 close)
  if ooLT ma25 ma5 then "MA5 above MA25 (bullish)" else "MA5 below MA25 (bearish)"

/-- 5-day momentum sub-rule (mean-reversion bias): over +3% → -0.5,
under -3% → +0.5. -/
def mom5Score (close : List ℚ) : ℚ :=
  if 6 ≤ close.length then
    let mom5 := (lastQ close / idxFromLast close 5 - 1) * 100
    if 3 < mom5 then -(1/2) else if mom5 < -3 then 1/2 else 0
  else 0

/-- Reasons of the 5-day momentum sub-rule (at most one). -/
def mom5Reasons (close : List ℚ) : List String :=
  if 6 ≤ close.length then
    let mom5 := (lastQ close / idxFromLast close 5 - 1) * 100
    if 3 < mom5 then ["5d momentum pullback risk"]
    else if mom5 < -3 then ["5d momentum bounce potential"]
    else []
  else []

/-- Raw technical score of `_calc_technical_score` (max magnitude 7). -/
def techScoreRaw (close : List ℚ) : ℚ :=
  rsiScore close + macdScore close + bollScore close + maScore close + mom5Score close

/-- Normalised technical block score: `clamp(score / 7.0)`. -/
def techNorm (close : List ℚ) : ℚ := clampUnit (techScoreRaw close / 7)

/-- Reason list of `_calc_technical_score`, in source order. -/
def techReasons (close : List ℚ) : List String :=
  [rsiReason close, macdReason close] ++ bollReasons close ++
    [maReason close] ++ mom5Reasons close

/-! ## `src/analysis/patterns.py` -/

/-- BUY/SELL/HOLD signal labels. -/
inductive Sig where
  | BUY | SELL | HOLD
deriving DecidableEq, Repr

/-- Strict 3-point local minima of a window: pairs `(index, value)` with
`r[i] < r[i-1]` and `r[i] < r[i+1]`, `1 ≤ i ≤ n-2`. -/
def strictLocalMins (r : List ℚ) : List (ℕ × ℚ) :=
  (List.range r.length).filterMap fun i =>
    if 1 ≤ i ∧ i + 1 < r.length ∧ r.getD i 0 < r.getD (i - 1) 0 ∧
        r.getD i 0 < r.getD (i + 1) 0 then
      some (i, r.getD i 0)
    else none

/-- Strict 3-point local maxima of a window. -/
def strictLocalMaxs (r : List ℚ) : List (ℕ × ℚ) :=
  (List.range r.length).filterMap fun i =>
    if 1 ≤ i ∧ i + 1 < r.length ∧ r.getD (i - 1) 0 < r.getD i 0 ∧
        r.getD (i + 1) 0 < r.getD i 0 then
      some (i, r.getD i 0)
    else none

/-- Adjacent pairs of a list (`(xs[i-1], xs[i])`). -/
def adjPairs {α : Type} (xs : List α) : List (α × α) := xs.zip xs.tail

/-- Adjacent triples of a list. -/
def adjTriples {α : Type} (xs : List α) : List (α × α × α) :=
  xs.zip (xs.tail.zip xs.tail.tail)

/-- `detect_double_bottom(prices, period=75, tolerance=0.03)`: scans the
most recent adjacent pair of local minima backwards; on a match (similar
bottoms, an intervening peak clearing the tolerance band, current price
above that neckline) returns the confidence
`round(min((current-peak)/peak*1000, 80), 1)`, else `none`. -/
def detect_double_bottom (prices : List ℚ) : Option ℚ :=
  if prices.length < 75 then none
  else
    let recent := lastN 75 prices
    let current := lastQ recent
    let ms := strictLocalMins recent
    if ms.length < 2 then none
    else
      (adjPairs ms).reverse.findSome? fun pr =>
        let v1 := pr.1.2
        let idx1 := pr.1.1
        let v2 := pr.2.2
        let idx2 := pr.2.1
        if |v1 - v2| / max v1 v2 < 3/100 then
          let between := (recent.take (idx2 + 1)).drop idx1
          let peak := between.max?.getD 0
          if v1 * (1 + 3/100) < peak then
            if peak < current then
              some (roundTo (min ((current - peak) / peak * 1000) 80) 1)
            else none
          else none
        else none

/-- `detect_double_top(prices, period=75, tolerance=0.03)` (mirror image,
SELL when detected). -/
def detect_double_top (prices : List ℚ) : Option ℚ :=
  if prices.length < 75 then none
  else
    let recent := lastN 75 prices
    let current := lastQ recent
    let ms := strictLocalMaxs recent
    if ms.length < 2 then none
    else
      (adjPairs ms).reverse.findSome? fun pr =>
        let v1 := pr.1.2
        let idx1 := pr.1.1
        let v2 := pr.2.2
        let idx2 := pr.2.1
        if |v1 - v2| / max v1 v2 < 3/100 then
          let between := (recent.take (idx2 + 1)).drop idx1
          let trough := between.min?.getD 0
          if trough < v1 * (1 - 3/100) then
            if current < trough then
              some (roundTo (min ((trough - current) / trough * 1000) 80) 1)
            else none
          else none
        else none

/-- The 3-point centered smoothing of `detect_head_and_shoulders`:
`rolling(3, center=True).mean()` back-filled at the front and forward-filled
at the back. -/
def hnsSmoothed (r : List ℚ) : List ℚ :=
  let n := r.length
  let m := fun (j : ℕ) => (r.getD (j - 1) 0 + r.getD j 0 + r.getD (j + 1) 0) / 3
  (List.range n).map fun i =>
    if i = 0 then m 1 else if i = n - 1 then m (n - 2) else m i

/-- Local maxima of the smoothed series used by head-and-shoulders:
5-point strict comparison on the smoothed values, recording the raw value. -/
def hnsMaxima (r : List ℚ) : List (ℕ × ℚ) :=
  let s := hnsSmoothed r
  (List.range r.length).filterMap fun i =>
    if 2 ≤ i ∧ i + 2 < r.length ∧
        s.getD (i - 1) 0 < s.getD i 0 ∧ s.getD (i + 1) 0 < s.getD i 0 ∧
        s.getD (i - 2) 0 < s.getD i 0 ∧ s.getD (i + 2) 0 < s.getD i 0 then
      some (i, r.getD i 0)
    else none

/-- `detect_head_and_shoulders(prices, period=100, tolerance=0.03)`:
returns the confidence `round(min((neckline-current)/neckline*500, 85), 1)`
when detected (SELL), else `none`. -/
def detect_head_and_shoulders (prices : List ℚ) : Option ℚ :=
  if prices.length < 100 then none
  else
    let recent := lastN 100 prices
    let current := lastQ recent
    let ms := hnsMaxima recent
    if ms.length < 3 then none
    else
      (adjTriples ms).reverse.findSome? fun tr =>
        let leftIdx := tr.1.1
        let leftVal := tr.1.2
        let headIdx := tr.2.1.1
        let headVal := tr.2.1.2
        let rightIdx := tr.2.2.1
        let rightVal := tr.2.2.2
        if leftVal < headVal ∧ rightVal < headVal then
          if |leftVal - rightVal| / max leftVal rightVal < 3/100 then
            let t1 := ((recent.take (headIdx + 1)).drop leftIdx).min?.getD 0
            let t2 := ((recent.take (rightIdx + 1)).drop headIdx).min?.getD 0
            let neck := (t1 + t2) / 2
            if current < neck then
              some (roundTo (min ((neck - current) / neck * 500) 85) 1)
            else none
          else none
        else none

/-- Result record of `detect_support_resistance`. -/
structure SRResult where
  supports : List ℚ
  resistances : List ℚ
  signal : Sig
  confidence : ℚ
deriving DecidableEq, Repr

/-- The rolling ±5-bar local minima values of the lookback window
(`recent[i] == np.min(recent[i-5:i+6])` for `5 ≤ i < n-5`). -/
def srLocalMins (recent : List ℚ) : List ℚ :=
  (List.range recent.length).filterMap fun i =>
    if 5 ≤ i ∧ i + 5 < recent.length ∧
        some (recent.getD i 0) = ((recent.take (i + 6)).drop (i - 5)).min? then
      some (recent.getD i 0)
    else none

/-- The rolling ±5-bar local maxima values of the lookback window. -/
def srLocalMaxs (recent : List ℚ) : List ℚ :=
  (List.range recent.length).filterMap fun i =>
    if 5 ≤ i ∧ i + 5 < recent.length ∧
        some (recent.getD i 0) = ((recent.take (i + 6)).drop (i - 5)).max? then
      some (recent.getD i 0)
    else none

/-- Worker of `cluster_levels`: groups the ascending-sorted level list,
appending a level to the running cluster when it is within 1.5% of the
cluster's last member. -/
def clusterGo (completed : List (List ℚ)) (cur : List ℚ) (curLast : ℚ) :
    List ℚ → List (List ℚ)
  | [] => completed ++ [cur]
  | lev :: rest =>
    if |lev - curLast| / max |curLast| (1 / 10 ^ 10) < 3/200 then
      clusterGo completed (cur ++ [lev]) lev rest
    else
      clusterGo (completed ++ [cur]) [lev] lev rest

/-- `cluster_levels(levels, max_levels)`: sort ascending, group by
proximity, rank clusters by membership count (stable sort, descending),
report the top clusters' means rounded to 2 decimals. -/
def cluster_levels (levels : List ℚ) (maxLevels : ℕ) : List ℚ :=
  match levels.mergeSort (fun a b => decide (a ≤ b)) with
  | [] => []
  | l0 :: rest =>
    let clusters := clusterGo [] [l0] l0 rest
    let ranked := clusters.mergeSort (fun a b => decide (b.length ≤ a.length))
    (ranked.take maxLevels).map fun c => roundTo (listMean c) 2

/-- `detect_support_resistance(prices, period=100, num_levels=3)`. -/
def detect_support_resistance (prices : List ℚ) : SRResult :=
  if prices.length < 100 then ⟨[], [], Sig.HOLD, 0⟩
  else
    let recent := lastN 100 prices
    let current := lastQ recent
    let localMin := srLocalMins recent
    let localMax := srLocalMaxs recent
    if localMin.isEmpty ∧ localMax.isEmpty then ⟨[], [], Sig.HOLD, 0⟩
    else
      let supports := cluster_levels (localMin.filter fun l => decide (l < current)) 3
      let resistances := cluster_levels (localMax.filter fun l => decide (current < l)) 3
      let s1 : Sig × ℚ :=
        if supports ≠ [] then
          let ns := supports.max?.getD 0
          let dist := (current - ns) / current
          if dist < 1/50 then (Sig.BUY, min ((1 - dist / (1/50)) * 60) 60)
          else (Sig.HOLD, 0)
        else (Sig.HOLD, 0)
      let s2 : Sig × ℚ :=
        if resistances ≠ [] then
          let nr := resistances.min?.getD 0
          let dist := (nr - current) / current
          if dist < 1/50 then (Sig.SELL, min ((1 - dist / (1/50)) * 60) 60)
          else s1
        else s1
      ⟨supports, resistances, s2.1, roundTo s2.2 1⟩

/-- The aggregate of `analyze_patterns`: signed sum of the detectors'
(rounded) confidences as weights in [0,1], in dict order
(double_bottom, double_top, head_and_shoulders, support_resistance),
together with the reason list.  The score is `round(-, 3)` as stored in
the aggregate dict. -/
def analyzePatternsAgg (prices : List ℚ) : ℚ × List String :=
  let db := detect_double_bottom prices
  let dt := detect_double_top prices
  let hs := detect_head_and_shoulders prices
  let sr := detect_support_resistance prices
  let s0 : ℚ × List String := (0, [])
  let s1 := match db with
    | some c => (s0.1 + c / 100, s0.2 ++ ["double_bottom: BUY"])
    | none => s0
  let s2 := match dt with
    | some c => (s1.1 - c / 100, s1.2 ++ ["double_top: SELL"])
    | none => s1
  let s3 := match hs with
    | some c => (s2.1 - c / 100, s2.2 ++ ["head_and_shoulders: SELL"])
    | none => s2
  let s4 := match sr.signal with
    | Sig.BUY => (s3.1 + sr.confidence / 100, s3.2 ++ ["support_resistance: BUY"])
    | Sig.SELL => (s3.1 - sr.confidence / 100, s3.2 ++ ["support_resistance: SELL"])
    | Sig.HOLD => s3
  (roundTo s4.1 3, s4.2)

/-- `_calc_pattern_score`: the aggregate score clamped to `[-1, 1]`. -/
def patternNorm (prices : List ℚ) : ℚ := clampUnit (analyzePatternsAgg prices).1

/-- Pattern block reason list. -/
def patternReasons (prices : List ℚ) : List String := (analyzePatternsAgg prices).2

/-! ## `src/analysis/advanced_indicators.py` -/

/-- `calc_awesome_oscillator(high, low, fast=5, slow=34)`:
`SMA(median_price, 5) - SMA(median_price, 34)` of `(High+Low)/2`. -/
def calc_awesome_oscillator (high low : List ℚ) : List (Option ℚ) :=
  let mp := List.zipWith (fun h l => (h + l) / 2) high low
  List.zipWith
    (fun a b => match a, b with
      | some x, some y => some (x - y)
      | _, _ => none)
    (rollingMean 5 mp) (rollingMean 34 mp)

/-- One step (bar `i ≥ 2`) of the Parabolic SAR recurrence of
`calc_parabolic_sar`, on the state `(sar, trend, ep, af, real_sar)`
carried from bar `i-1`; `initial_af = 0.02`, `step_af = 0.02`,
`end_af = 0.2`. -/
def psarStep (h l : ℕ → ℚ) (st : ℚ × ℤ × ℚ × ℚ × ℚ) (i : ℕ) :
    ℚ × ℤ × ℚ × ℚ × ℚ :=
  let sarP := st.1
  let trendP := st.2.1
  let epP := st.2.2.1
  let afP := st.2.2.2.1
  let temp := sarP + afP * (epP - sarP)
  let sarTrend : ℚ × ℤ :=
    if trendP < 0 then
      let s := max temp (max (h (i - 1)) (h (i - 2)))
      (s, if s < h i then 1 else trendP - 1)
    else
      let s := min temp (min (l (i - 1)) (l (i - 2)))
      (s, if l i < s then -1 else trendP + 1)
  let sarI := sarTrend.1
  let trendI := sarTrend.2
  let epI :=
    if trendI < 0 then (if trendI ≠ -1 then min (l i) epP else l i)
    else (if trendI ≠ 1 then max (h i) epP else h i)
  let realAf : ℚ × ℚ :=
    if trendI = 1 ∨ trendI = -1 then (epP, 1/50)
    else (sarI, if epI = epP then afP else min (1/5) (afP + 1/50))
  (sarI, trendI, epI, realAf.2, realAf.1)

/-- `calc_parabolic_sar(high, low, close).iloc[-1]` (the only value the
signal generator reads): `none` (all-NaN series) for fewer than 3 bars,
otherwise the final `real_sar` of the bar-by-bar recurrence. -/
def psarLast (high low close : List ℚ) : Option ℚ :=
  let n := close.length
  if n < 3 then none
  else
    let h := fun i => high.getD i 0
    let l := fun i => low.getD i 0
    let c := fun i => close.getD i 0
    let trend1 : ℤ := if c 0 < c 1 then 1 else -1
    let sar1 := if 0 < trend1 then h 0 else l 0
    let ep1 := if 0 < trend1 then h 1 else l 1
    let st0 : ℚ × ℤ × ℚ × ℚ × ℚ := (sar1, trend1, ep1, 1/50, sar1)
    let final := (List.range (n - 2)).foldl (fun st k => psarStep h l st (k + 2)) st0
    some final.2.2.2.2

/-- `calc_stochastic` %K: `(Close - Low_n)/(High_n - Low_n) * 100` over the
trailing 14-bar window; a zero-range window is NaN (the source replaces a
zero denominator by NaN before dividing). -/
def stochK (high low close : List ℚ) : List (Option ℚ) :=
  List.zipWith
    (fun c p =>
      match p.1, p.2 with
      | some lo, some hi =>
        if hi - lo = 0 then none else some ((c - lo) / (hi - lo) * 100)
      | _, _ => none)
    close ((rollingMin 14 low).zip (rollingMax 14 high))

/-- `calc_stochastic` %D: `SMA(%K, 3)`. -/
def stochD (high low close : List ℚ) : List (Option ℚ) :=
  rollingMeanOpt 3 (stochK high low close)

/-- `np.sign(close.diff())` with the first entry forced to 0. -/
def obvDirs (close : List ℚ) : List ℚ :=
  (diffs close).map fun o =>
    match o with
    | none => 0
    | some d => if 0 < d then 1 else if d < 0 then -1 else 0

/-- `calc_obv`: cumulative sum of signed volume. -/
def calc_obv (close volume : List ℚ) : List ℚ :=
  cumsum (List.zipWith (fun v d => v * d) volume (obvDirs close))

/-- Awesome-Oscillator rule of `generate_advanced_signals`: ±1.5 on a zero
crossing in the last two bars, else ±0.5 by sign; a NaN AO contributes
nothing (and a NaN previous value fails both crossing tests). -/
def aoScore (high low : List ℚ) : ℚ :=
  let ao := calc_awesome_oscillator high low
  match lastO ao with
  | none => 0
  | some a =>
    let prev := idxFromLastO ao 1
    if 0 < a ∧ oLE prev 0 then 3/2
    else if a < 0 ∧ oGE prev 0 then -(3/2)
    else if 0 < a then 1/2
    else -(1/2)

/-- Reasons of the AO rule. -/
def aoReasons (high low : List ℚ) : List String :=
  let ao := calc_awesome_oscillator high low
  match lastO ao with
  | none => []
  | some a =>
    let prev := idxFromLastO ao 1
    if 0 < a ∧ oLE prev 0 then ["AO bullish crossover"]
    else if a < 0 ∧ oGE prev 0 then ["AO bearish crossover"]
    else if 0 < a then ["AO positive"]
    else ["AO negative"]

/-- Parabolic-SAR rule: +1 when price is above the SAR, -1 below; a NaN
SAR contributes nothing. -/
def psarScore (high low close : List ℚ) : ℚ :=
  match psarLast high low close with
  | none => 0
  | some p => if p < lastQ close then 1 else -1

/-- Reasons of the PSAR rule. -/
def psarReasons (high low close : List ℚ) : List String :=
  match psarLast high low close with
  | none => []
  | some p => if p < lastQ close then ["PSAR uptrend"] else ["PSAR downtrend"]

/-- Stochastic rule: ±1.5 in the joint K/D extreme zones, else ±0.5 by the
K-vs-D ordering (a NaN %D fails every comparison, landing in -0.5). -/
def stochScore (high low close : List ℚ) : ℚ :=
  match lastO (stochK high low close) with
  | none => 0
  | some kv =>
    let dv := lastO (stochD high low close)
    if kv < 20 ∧ oLT dv 20 then 3/2
    else if 80 < kv ∧ oGT dv 80 then -(3/2)
    else if ooLT dv kv then 1/2
    else -(1/2)

/-- Reasons of the Stochastic rule. -/
def stochReasons (high low close : List ℚ) : List String :=
  match lastO (stochK high low close) with
  | none => []
  | some kv =>
    let dv := lastO (stochD high low close)
    if kv < 20 ∧ oLT dv 20 then ["Stochastic oversold"]
    else if 80 < kv ∧ oGT dv 80 then ["Stochastic overbought"]
    else if ooLT dv kv then ["Stochastic K above D"]
    else ["Stochastic K below D"]

/-- OBV rule: trend confirmation ±1, divergence ±1.5, measured over the
last 5 bars (0 when fewer than 5 bars). -/
def obvScore (close volume : List ℚ) : ℚ :=
  let obv := calc_obv close volume
  let ot := if 5 ≤ obv.length then lastQ obv - idxFromLast obv 4 else 0
  let pt := if 5 ≤ close.length then lastQ close - idxFromLast close 4 else 0
  if 0 < ot ∧ 0 < pt then 1
  else if ot < 0 ∧ pt < 0 then -1
  else if 0 < ot ∧ pt ≤ 0 then 3/2
  else if ot < 0 ∧ 0 ≤ pt then -(3/2)
  else 0

/-- Reasons of the OBV rule. -/
def obvReasons (close volume : List ℚ) : List String :=
  let obv := calc_obv close volume
  let ot := if 5 ≤ obv.length then lastQ obv - idxFromLast obv 4 else 0
  let pt := if 5 ≤ close.length then lastQ close - idxFromLast close 4 else 0
  if 0 < ot ∧ 0 < pt then ["OBV confirms uptrend"]
  else if ot < 0 ∧ pt < 0 then ["OBV confirms downtrend"]
  else if 0 < ot ∧ pt ≤ 0 then ["OBV bullish divergence"]
  else if ot < 0 ∧ 0 ≤ pt then ["OBV bearish divergence"]
  else []

/-- The raw aggregate momentum score of `generate_advanced_signals`
(before rounding). -/
def momScoreRaw (high low close volume : List ℚ) : ℚ :=
  aoScore high low + psarScore high low close + stochScore high low close +
    obvScore close volume

/-- The aggregate momentum score as stored in the aggregate dict:
`round(score, 2)`. -/
def momAgg (high low close volume : List ℚ) : ℚ :=
  roundTo (momScoreRaw high low close volume) 2

/-- `_calc_momentum_score`: `clamp(aggregate / 6.5)`. -/
def momNorm (high low close volume : List ℚ) : ℚ :=
  clampUnit (momAgg high low close volume / (13/2))

/-- Momentum block reason list, in source order. -/
def momReasons (high low close volume : List ℚ) : List String :=
  aoReasons high low ++ psarReasons high low close ++
    stochReasons high low close ++ obvReasons close volume

/-! ## `src/analysis/predictor.py` -/

/-- One OHLCV bar; dates are integer day numbers (the data-model invariant
asks for strictly increasing dates). -/
structure Bar where
  date : ℤ
  open_ : ℚ
  high : ℚ
  low : ℚ
  close : ℚ
  volume : ℚ
deriving DecidableEq, Repr

instance : Inhabited Bar := ⟨⟨0, 0, 0, 0, 0, 0⟩⟩

/-- Forecast directions. -/
inductive Dir where
  | UP | DOWN | FLAT
deriving DecidableEq, Repr

/-- `yf.download(ticker, start=s, end=e)` modelled on the ticker's full
bar history: the bars with `s ≤ date < e` (yfinance treats `end` as
exclusive), in history order. -/
def downloadRange (market : List Bar) (s e : ℤ) : List Bar :=
  market.filter fun b => decide (s ≤ b.date) && decide (b.date < e)

/-- The price history `blind_predict` actually scores: the download window
`[cutoff - 250 d, cutoff + 1 d)` further truncated by
`data[data.index <= cutoff]`. -/
def truncAsOf (market : List Bar) (cutoff : ℤ) : List Bar :=
  (downloadRange market (cutoff - 250) (cutoff + 1)).filter fun b =>
    decide (b.date ≤ cutoff)

/-- The un-rounded quantities `blind_predict` computes for a sufficient
history (source lines 190-219), before the output dict rounds them for
serialization. -/
structure PredCore where
  tech : ℚ
  pattern : ℚ
  momentum : ℚ
  composite : ℚ
  agreement : ℚ
  confidence : ℚ
  direction : Dir
  reasons : List String
deriving DecidableEq, Repr

/-- The scoring pipeline of `blind_predict` on the truncated data:
component scores, weighted composite (0.40/0.30/0.30), sign-agreement,
confidence `min(|composite|*100*(0.5+0.5*agreement), 95)` and the
±0.05 direction dead-zone. -/
def predCore (data : List Bar) : PredCore :=
  let close := data.map Bar.close
  let high := data.map Bar.high
  let low := data.map Bar.low
  let volume := data.map Bar.volume
  let t := techNorm close
  let p := patternNorm close
  let m := momNorm high low close volume
  let comp := (2/5) * t + (3/10) * p + (3/10) * m
  let agr := |sgnQ t + sgnQ p + sgnQ m| / 3
  let conf := min (|comp| * 100 * (1/2 + agr / 2)) 95
  { tech := t
    pattern := p
    momentum := m
    composite := comp
    agreement := agr
    confidence := conf
    direction :=
      if 1/20 < comp then Dir.UP
      else if comp < -(1/20) then Dir.DOWN
      else Dir.FLAT
    reasons := techReasons close ++ patternReasons close ++
      momReasons high low close volume }

/-- The dict `blind_predict` returns: either an error record (which always
carries direction FLAT and confidence 0) or a full prediction.  The
success payload keeps the un-rounded core; the rounded dict entries are
recovered by the accessors below. -/
inductive Prediction where
  | failure (err : String)
  | success (core : PredCore) (price : ℚ)
deriving DecidableEq, Repr

/-- The `direction` entry of the returned dict. -/
def Prediction.direction : Prediction → Dir
  | .failure _ => Dir.FLAT
  | .success c _ => c.direction

/-- The `confidence` entry of the returned dict (`round(confidence, 1)`;
0 on the error paths). -/
def Prediction.confidence : Prediction → ℚ
  | .failure _ => 0
  | .success c _ => roundTo c.confidence 1

/-- `pred.get("composite_score", 0)` as read by `evaluate_prediction`
(`round(composite, 4)` on success, 0 on the error paths). -/
def Prediction.compositeOut : Prediction → ℚ
  | .failure _ => 0
  | .success c _ => roundTo c.composite 4

/-- The `error` entry of the returned dict, when present. -/
def Prediction.error : Prediction → Option String
  | .failure e => some e
  | .success _ _ => none

/-- `blind_predict(ticker, as_of_date)` on the ticker's full history:
download `[cutoff-250d, cutoff+1d)`, guard against an empty frame, truncate
to `date ≤ cutoff`, guard against fewer than 30 bars, then score. -/
def blind_predict (market : List Bar) (cutoff : ℤ) : Prediction :=
  let dl := downloadRange market (cutoff - 250) (cutoff + 1)
  if dl.isEmpty then .failure "No data"
  else
    let data := dl.filter fun b => decide (b.date ≤ cutoff)
    if data.length < 30 then .failure "Insufficient data"
    else .success (predCore data) (roundTo (lastQ (data.map Bar.close)) 2)

/-- `blind_predict` including its upstream-failure path: the whole body
sits in a `try/except Exception` whose only fallible operation in this
embedding is the data fetch, so a failed fetch (`Except.error e`) degrades
to the FLAT/0-confidence record carrying `str(e)`. -/
def blind_predictE (fetch : Except String (List Bar)) (cutoff : ℤ) : Prediction :=
  match fetch with
  | .error e => .failure e
  | .ok market => blind_predict market cutoff

/-- One retained row of the backtest report (`evaluate_prediction`'s
result dict restricted to the fields `backtest` copies). -/
structure Record where
  date : ℤ
  predicted : Dir
  actual : Dir
  actualReturnPct : ℚ
  hit : Bool
  confidence : ℚ
  compositeScore : ℚ
deriving DecidableEq, Repr

instance : Inhabited Record :=
  ⟨⟨0, Dir.FLAT, Dir.FLAT, 0, false, 0, 0⟩⟩

/-- The realized-direction classification of `evaluate_prediction`:
`actual_return = (end_price/start_price - 1) * 100`, then UP above +0.5,
DOWN below -0.5, else FLAT. -/
def actualDirOf (sp ep : ℚ) : Dir :=
  if 1/2 < (ep / sp - 1) * 100 then Dir.UP
  else if (ep / sp - 1) * 100 < -(1/2) then Dir.DOWN
  else Dir.FLAT

/-- `evaluate_prediction(ticker, prediction_date, actual_date)`: `none`
models the error dict (window shorter than 2 bars), which `backtest`
drops; otherwise the realized outcome compares the first and last Close of
the window `[prediction_date, actual_date]` against the ±0.5% dead-zone. -/
def evaluate (market : List Bar) (predDate actualDate : ℤ) : Option Record :=
  let pred := blind_predict market predDate
  let w := downloadRange market predDate (actualDate + 1)
  if w.length < 2 then none
  else
    let sp := (w.headD default).close
    let ep := (w.getLastD default).close
    some
      { date := predDate
        predicted := pred.direction
        actual := actualDirOf sp ep
        actualReturnPct := roundTo ((ep / sp - 1) * 100) 2
        hit := decide (pred.direction = actualDirOf sp ep)
        confidence := pred.confidence
        compositeScore := pred.compositeOut }

/-- The `while current + 7d <= end` loop of `backtest`, accumulating the
retained records in step order. -/
def backtestFrom (market : List Bar) (e : ℤ) (current : ℤ) : List Record :=
  if _h : current + 7 ≤ e then
    match evaluate market current (current + 7) with
    | some r => r :: backtestFrom market e (current + 7)
    | none => backtestFrom market e (current + 7)
  else []
termination_by (e - current).toNat
decreasing_by all_goals omega

/-- `backtest(ticker, start_date, end_date)`: the retained weekly records. -/
def backtest (market : List Bar) (s e : ℤ) : List Record :=
  backtestFrom market e s

/-- The accuracy summary `df["hit"].mean() * 100` over the retained
records. -/
def accuracy (rs : List Record) : ℚ :=
  ((rs.countP Record.hit : ℚ) / (rs.length : ℚ)) * 100

/-! ## Concrete inputs used by the witnesses and counterexamples -/

/-- A one-bar history (for the no-lookahead witness). -/
def exC1market : List Bar := [⟨0, 10, 11, 9, 10, 1000⟩]

/-- Future bars dated after the cutoff 0. -/
def exC1extra : List Bar := [⟨5, 12, 13, 11, 12, 1000⟩, ⟨9, 14, 15, 13, 14, 1000⟩]

/-- Ten daily bars, dates 0..9, closes 100..109 (too short for the
predictor's 30-bar warm-up, long enough for realized outcomes). -/
def exShortMarket : List Bar :=
  (List.range 10).map fun i =>
    { date := (i : ℤ), open_ := 100 + (i : ℚ), high := 100 + (i : ℚ),
      low := 100 + (i : ℚ), close := 100 + (i : ℚ), volume := 1000 }

/-- A second copy of the short market shape with different closes, for the
C9 counterexample. -/
def exC9market : List Bar :=
  (List.range 10).map fun i =>
    { date := (i : ℤ), open_ := 50 + (i : ℚ), high := 50 + (i : ℚ),
      low := 50 + (i : ℚ), close := 50 + (i : ℚ), volume := 500 }

/-- A 35-bar market, dates 0..34 (enough for the 30-bar warm-up at
cutoff 40). -/
def exLongMarket : List Bar :=
  (List.range 35).map fun i =>
    { date := (i : ℤ), open_ := 100, high := 101, low := 99,
      close := if i % 2 = 0 then 100 else 101, volume := 1000 }

/-- A strictly rising 30-bar Close series. -/
def exRising30 : List ℚ := (List.range 30).map fun i => (i : ℚ) + 1

/-- A strictly rising 15-bar Close series. -/
def exRising15 : List ℚ := (List.range 15).map fun i => (i : ℚ) + 1

/-- A 15-bar alternating Close series 0,1,0,1,... whose RSI at index 14
is exactly 1300/27. -/
def exAlt15 : List ℚ := (List.range 15).map fun i => if i % 2 = 0 then 0 else 1

/-- A constant 20-bar series (zero-range Stochastic windows). -/
def exFlat20 : List ℚ := List.replicate 20 5

/-- A 100-bar series: 100 everywhere except a dip to 99 at index 20 and a
spike to 101 at index 50; both a support (99) within 2% below and a
resistance (101) within 2% above the current price 100. -/
def exSR100 : List ℚ :=
  (List.range 100).map fun i => if i = 20 then 99 else if i = 50 then 101 else 100

end Sentinel

namespace Sentinel

/-! ## Helper lemmas -/

theorem roundHalfEven_le (x : ℚ) (m : ℤ) (h : x ≤ (m : ℚ)) :
    roundHalfEven x ≤ m := by
  unfold roundHalfEven
  have hfl : ⌊x⌋ ≤ m := by
    have := Int.floor_le_floor h
    rwa [Int.floor_intCast] at this
  split_ifs with h1 h2 h3
  · exact hfl
  · -- 1/2 < x - ⌊x⌋ : then ⌊x⌋ < m
    have hx : (⌊x⌋ : ℚ) + 1/2 < x := by linarith
    have : (⌊x⌋ : ℚ) < m := by linarith
    have : ⌊x⌋ < m := by exact_mod_cast this
    omega
  · exact hfl
  · have hx : (⌊x⌋ : ℚ) + 1/2 ≤ x := by linarith
    have : (⌊x⌋ : ℚ) < m := by linarith
    have : ⌊x⌋ < m := by exact_mod_cast this
    omega

theorem le_roundHalfEven (x : ℚ) (m : ℤ) (h : (m : ℚ) ≤ x) :
    m ≤ roundHalfEven x := by
  unfold roundHalfEven
  have hfl : m ≤ ⌊x⌋ := Int.le_floor.mpr h
  split_ifs <;> omega

theorem roundTo_le (x : ℚ) (n : ℕ) (m : ℤ) (h : x ≤ (m : ℚ)) :
    roundTo x n ≤ (m : ℚ) := by
  unfold roundTo
  have hp : (0 : ℚ) < 10 ^ n := by positivity
  have h1 : x * 10 ^ n ≤ ((m * 10 ^ n : ℤ) : ℚ) := by
    push_cast
    nlinarith
  have h2 : roundHalfEven (x * 10 ^ n) ≤ m * 10 ^ n := roundHalfEven_le _ _ h1
  rw [div_le_iff₀ hp]
  calc (roundHalfEven (x * 10 ^ n) : ℚ) ≤ ((m * 10 ^ n : ℤ) : ℚ) := by exact_mod_cast h2
    _ = (m : ℚ) * 10 ^ n := by push_cast; ring

theorem le_roundTo (x : ℚ) (n : ℕ) (m : ℤ) (h : (m : ℚ) ≤ x) :
    (m : ℚ) ≤ roundTo x n := by
  unfold roundTo
  have hp : (0 : ℚ) < 10 ^ n := by positivity
  have h1 : ((m * 10 ^ n : ℤ) : ℚ) ≤ x * 10 ^ n := by
    push_cast
    nlinarith
  have h2 : m * 10 ^ n ≤ roundHalfEven (x * 10 ^ n) := le_roundHalfEven _ _ h1
  rw [le_div_iff₀ hp]
  calc (m : ℚ) * 10 ^ n = ((m * 10 ^ n : ℤ) : ℚ) := by push_cast; ring
    _ ≤ (roundHalfEven (x * 10 ^ n) : ℚ) := by exact_mod_cast h2

theorem clampUnit_le_one (x : ℚ) : clampUnit x ≤ 1 := by
  unfold clampUnit
  refine max_le (min_le_right x 1) (by norm_num)

theorem neg_one_le_clampUnit (x : ℚ) : -1 ≤ clampUnit x := le_max_right _ _

/-- `downloadRange` of a list extended by bars outside the window. -/
theorem downloadRange_append_future (market extra : List Bar) (s e : ℤ)
    (hfut : ∀ b ∈ extra, e ≤ b.date) :
    downloadRange (market ++ extra) s e = downloadRange market s e := by
  unfold downloadRange
  rw [List.filter_append]
  have hnil : (extra.filter fun b => decide (s ≤ b.date) && decide (b.date < e)) = [] := by
    rw [List.filter_eq_nil_iff]
    intro b hb
    have := hfut b hb
    simp only [Bool.and_eq_true, decide_eq_true_eq, not_and]
    omega
  rw [hnil, List.append_nil]

/-- The second truncation inside `blind_predict` is the identity on the
downloaded window (for day-granularity dates, `date < cutoff + 1` already
forces `date ≤ cutoff`). -/
theorem truncAsOf_eq_download (market : List Bar) (cutoff : ℤ) :
    truncAsOf market cutoff = downloadRange market (cutoff - 250) (cutoff + 1) := by
  unfold truncAsOf
  apply List.filter_eq_self.mpr
  intro b hb
  unfold downloadRange at hb
  have := List.of_mem_filter hb
  simp only [Bool.and_eq_true, decide_eq_true_eq] at this ⊢
  omega

/-- `blind_predict` on a sufficient truncated history. -/
theorem blind_predict_success (market : List Bar) (cutoff : ℤ)
    (h30 : 30 ≤ (truncAsOf market cutoff).length) :
    blind_predict market cutoff =
      .success (predCore (truncAsOf market cutoff))
        (roundTo (lastQ ((truncAsOf market cutoff).map Bar.close)) 2) := by
  unfold blind_predict
  have hne : (downloadRange market (cutoff - 250) (cutoff + 1)).isEmpty = false := by
    rw [Bool.eq_false_iff]
    intro hemp
    have h0 : downloadRange market (cutoff - 250) (cutoff + 1) = [] :=
      List.isEmpty_iff.mp hemp
    rw [truncAsOf_eq_download, h0] at h30
    simp at h30
  have hdata :
      ((downloadRange market (cutoff - 250) (cutoff + 1)).filter fun b =>
        decide (b.date ≤ cutoff)) = truncAsOf market cutoff := rfl
  simp only [hne, Bool.false_eq_true, if_false, hdata]
  rw [if_neg (by omega)]

/-- `blind_predict` on an insufficient truncated history. -/
theorem blind_predict_failure (market : List Bar) (cutoff : ℤ)
    (h30 : (truncAsOf market cutoff).length < 30) :
    blind_predict market cutoff = .failure "No data" ∨
      blind_predict market cutoff = .failure "Insufficient data" := by
  unfold blind_predict
  by_cases hemp : (downloadRange market (cutoff - 250) (cutoff + 1)).isEmpty
  · left
    simp [hemp]
  · right
    have hdata :
        ((downloadRange market (cutoff - 250) (cutoff + 1)).filter fun b =>
          decide (b.date ≤ cutoff)) = truncAsOf market cutoff := rfl
    simp only [hemp, Bool.false_eq_true, if_false, hdata]
    rw [if_pos h30]

theorem predCore_direction (data : List Bar) :
    (predCore data).direction =
      if 1/20 < (predCore data).composite then Dir.UP
      else if (predCore data).composite < -(1/20) then Dir.DOWN
      else Dir.FLAT := rfl

theorem predCore_agreement (data : List Bar) :
    (predCore data).agreement =
      |sgnQ (predCore data).tech + sgnQ (predCore data).pattern +
        sgnQ (predCore data).momentum| / 3 := rfl

theorem predCore_confidence (data : List Bar) :
    (predCore data).confidence =
      min (|(predCore data).composite| * 100 *
        (1/2 + (predCore data).agreement / 2)) 95 := rfl

theorem sgnQ_cases (x : ℚ) : sgnQ x = -1 ∨ sgnQ x = 0 ∨ sgnQ x = 1 := by
  unfold sgnQ
  split_ifs <;> simp

theorem agreement_nonneg (a b c : ℚ) : 0 ≤ |sgnQ a + sgnQ b + sgnQ c| / 3 := by
  positivity

theorem agreement_le_one (a b c : ℚ) : |sgnQ a + sgnQ b + sgnQ c| / 3 ≤ 1 := by
  have hb : ∀ x : ℚ, -1 ≤ sgnQ x ∧ sgnQ x ≤ 1 := by
    intro x
    rcases sgnQ_cases x with h | h | h <;> rw [h] <;> norm_num
  have h1 := hb a
  have h2 := hb b
  have h3 := hb c
  have habs : |sgnQ a + sgnQ b + sgnQ c| ≤ 3 :=
    abs_le.mpr ⟨by linarith, by linarith⟩
  linarith

/-! ## C1 -/

/-- C1 (no-lookahead): for every price history and cutoff date, appending
bars dated strictly after the cutoff to the history does not change the
output of `blind_predict`. -/
theorem c1_no_lookahead (market extra : List Bar) (cutoff : ℤ)
    (hfut : ∀ b ∈ extra, cutoff < b.date) :
    blind_predict (market ++ extra) cutoff = blind_predict market cutoff := by
  unfold blind_predict
  rw [downloadRange_append_future market extra _ _ (by intro b hb; have := hfut b hb; omega)]

/-- Witness for C1 at a concrete history, cutoff and future bars. -/
theorem c1_no_lookahead_witness :
    (∀ b ∈ exC1extra, (0 : ℤ) < b.date) ∧
      blind_predict (exC1market ++ exC1extra) 0 = blind_predict exC1market 0 :=
  ⟨by decide, c1_no_lookahead exC1market exC1extra 0 (by decide)⟩

/-! ## C5 -/

/-- C5 (error degradation): a truncated history of fewer than 30 bars
makes `blind_predict` return a FLAT direction with confidence 0 and an
explicit insufficient-data error tag instead of raising, and a failed
fetch (the fallible operation inside the function's `try/except`) degrades
to a FLAT/0-confidence result carrying the error text.  (In this total
embedding no exception can escape by construction.) -/
theorem c5_error_degradation :
    (∀ (market : List Bar) (cutoff : ℤ), (truncAsOf market cutoff).length < 30 →
      ∃ e, blind_predict market cutoff = .failure e ∧
        (e = "No data" ∨ e = "Insufficient data") ∧
        (blind_predict market cutoff).direction = Dir.FLAT ∧
        (blind_predict market cutoff).confidence = 0 ∧
        (blind_predict market cutoff).error = some e) ∧
    (∀ (msg : String) (cutoff : ℤ),
      blind_predictE (.error msg) cutoff = .failure msg ∧
      (blind_predictE (.error msg) cutoff).direction = Dir.FLAT ∧
      (blind_predictE (.error msg) cutoff).confidence = 0 ∧
      (blind_predictE (.error msg) cutoff).error = some msg) := by
  constructor
  · intro market cutoff h30
    rcases blind_predict_failure market cutoff h30 with h | h
    · exact ⟨"No data", h, Or.inl rfl, by rw [h]; rfl, by rw [h]; rfl, by rw [h]; rfl⟩
    · exact ⟨"Insufficient data", h, Or.inr rfl, by rw [h]; rfl, by rw [h]; rfl, by rw [h]; rfl⟩
  · intro msg cutoff
    exact ⟨rfl, rfl, rfl, rfl⟩

/-- Witness for C5 at a concrete one-bar history. -/
theorem c5_error_degradation_witness :
    ((truncAsOf exC1market 0).length < 30 ∧
      ∃ e, blind_predict exC1market 0 = .failure e ∧
        (e = "No data" ∨ e = "Insufficient data") ∧
        (blind_predict exC1market 0).direction = Dir.FLAT ∧
        (blind_predict exC1market 0).confidence = 0 ∧
        (blind_predict exC1market 0).error = some e) ∧
    blind_predictE (.error "boom") 3 = .failure "boom" :=
  ⟨⟨by decide, c5_error_degradation.1 exC1market 0 (by decide)⟩,
    (c5_error_degradation.2 "boom" 3).1⟩

/-- The three-way reading of the ±0.05 direction dead-zone if-chain. -/
theorem direction_spec (c : ℚ) :
    ((if 1/20 < c then Dir.UP else if c < -(1/20) then Dir.DOWN else Dir.FLAT) =
        Dir.UP ↔ 1/20 < c) ∧
    ((if 1/20 < c then Dir.UP else if c < -(1/20) then Dir.DOWN else Dir.FLAT) =
        Dir.DOWN ↔ c < -(1/20)) ∧
    ((if 1/20 < c then Dir.UP else if c < -(1/20) then Dir.DOWN else Dir.FLAT) =
        Dir.FLAT ↔ (-(1/20) ≤ c ∧ c ≤ 1/20)) := by
  rcases lt_or_le (1/20 : ℚ) c with h1 | h1
  · rw [if_pos h1]
    refine ⟨iff_of_true rfl h1, iff_of_false (by decide) (by intro h2; linarith),
      iff_of_false (by decide) ?_⟩
    rintro ⟨-, hb⟩
    linarith
  · rcases lt_or_le c (-(1/20) : ℚ) with h2 | h2
    · rw [if_neg (not_lt.mpr h1), if_pos h2]
      refine ⟨iff_of_false (by decide) (not_lt.mpr h1), iff_of_true rfl h2,
        iff_of_false (by decide) ?_⟩
      rintro ⟨ha, -⟩
      linarith
    · rw [if_neg (not_lt.mpr h1), if_neg (not_lt.mpr h2)]
      exact ⟨iff_of_false (by decide) (not_lt.mpr h1),
        iff_of_false (by decide) (not_lt.mpr h2), iff_of_true rfl ⟨h2, h1⟩⟩

/-! ## C4 -/

/-- C4 (direction dead-zone): for every prediction with at least 30 bars
of truncated history, the direction is UP iff the (un-rounded) composite
exceeds 0.05, DOWN iff it is below -0.05, and FLAT otherwise; in
particular every composite inside (-0.05, 0.05) yields FLAT. -/
theorem c4_direction_deadzone (market : List Bar) (cutoff : ℤ)
    (h30 : 30 ≤ (truncAsOf market cutoff).length) :
    (∃ pr, blind_predict market cutoff =
      .success (predCore (truncAsOf market cutoff)) pr) ∧
    ((predCore (truncAsOf market cutoff)).direction = Dir.UP ↔
      1/20 < (predCore (truncAsOf market cutoff)).composite) ∧
    ((predCore (truncAsOf market cutoff)).direction = Dir.DOWN ↔
      (predCore (truncAsOf market cutoff)).composite < -(1/20)) ∧
    ((predCore (truncAsOf market cutoff)).direction = Dir.FLAT ↔
      (-(1/20) ≤ (predCore (truncAsOf market cutoff)).composite ∧
        (predCore (truncAsOf market cutoff)).composite ≤ 1/20)) := by
  refine ⟨⟨_, blind_predict_success market cutoff h30⟩, ?_, ?_, ?_⟩ <;>
    rw [predCore_direction]
  · exact (direction_spec _).1
  · exact (direction_spec _).2.1
  · exact (direction_spec _).2.2

/-- Witness for C4 at a concrete 35-bar history with cutoff 40. -/
theorem c4_direction_deadzone_witness :
    (30 ≤ (truncAsOf exLongMarket 40).length) ∧
      ((predCore (truncAsOf exLongMarket 40)).direction = Dir.FLAT ↔
        (-(1/20) ≤ (predCore (truncAsOf exLongMarket 40)).composite ∧
          (predCore (truncAsOf exLongMarket 40)).composite ≤ 1/20)) :=
  ⟨by decide, (c4_direction_deadzone exLongMarket 40 (by decide)).2.2.2⟩

/-! ## C3 -/

/-- C3 (confidence calibration): for every prediction with at least 30
bars of truncated history, the agreement equals the absolute sum of the
three component-score signs over 3 (so it is 0, 1/3, 2/3 or 1), the
(un-rounded) confidence equals
`min(|composite| * 100 * (0.5 + 0.5 * agreement), 95)`, and, holding
`|composite|` fixed, a prediction with unanimous component signs has
confidence at least that of any other prediction (in particular one with
mixed signs). -/
theorem c3_confidence_calibration (market : List Bar) (cutoff : ℤ)
    (h30 : 30 ≤ (truncAsOf market cutoff).length) :
    (∃ pr, blind_predict market cutoff =
      .success (predCore (truncAsOf market cutoff)) pr) ∧
    (predCore (truncAsOf market cutoff)).agreement =
      |sgnQ (predCore (truncAsOf market cutoff)).tech +
        sgnQ (predCore (truncAsOf market cutoff)).pattern +
        sgnQ (predCore (truncAsOf market cutoff)).momentum| / 3 ∧
    ((predCore (truncAsOf market cutoff)).agreement = 0 ∨
      (predCore (truncAsOf market cutoff)).agreement = 1/3 ∨
      (predCore (truncAsOf market cutoff)).agreement = 2/3 ∨
      (predCore (truncAsOf market cutoff)).agreement = 1) ∧
    (predCore (truncAsOf market cutoff)).confidence =
      min (|(predCore (truncAsOf market cutoff)).composite| * 100 *
        (1/2 + (predCore (truncAsOf market cutoff)).agreement / 2)) 95 ∧
    (∀ (market2 : List Bar) (cutoff2 : ℤ),
      30 ≤ (truncAsOf market2 cutoff2).length →
      |(predCore (truncAsOf market2 cutoff2)).composite| =
        |(predCore (truncAsOf market cutoff)).composite| →
      sgnQ (predCore (truncAsOf market cutoff)).tech =
        sgnQ (predCore (truncAsOf market cutoff)).pattern →
      sgnQ (predCore (truncAsOf market cutoff)).pattern =
        sgnQ (predCore (truncAsOf market cutoff)).momentum →
      sgnQ (predCore (truncAsOf market cutoff)).tech ≠ 0 →
      (predCore (truncAsOf market2 cutoff2)).confidence ≤
        (predCore (truncAsOf market cutoff)).confidence) := by
  refine ⟨⟨_, blind_predict_success market cutoff h30⟩,
    predCore_agreement _, ?_, predCore_confidence _, ?_⟩
  · rw [predCore_agreement]
    rcases sgnQ_cases (predCore (truncAsOf market cutoff)).tech with h1 | h1 | h1 <;>
      rcases sgnQ_cases (predCore (truncAsOf market cutoff)).pattern with h2 | h2 | h2 <;>
      rcases sgnQ_cases (predCore (truncAsOf market cutoff)).momentum with h3 | h3 | h3 <;>
      rw [h1, h2, h3] <;> with_unfolding_all decide
  · intro market2 cutoff2 _ hcomp hab hbc hne
    rw [predCore_confidence, predCore_confidence, hcomp]
    have hagr1 : (predCore (truncAsOf market cutoff)).agreement = 1 := by
      rw [predCore_agreement]
      rcases sgnQ_cases (predCore (truncAsOf market cutoff)).tech with h1 | h1 | h1 <;>
        rw [h1] at hab hne ⊢ <;>
        first
          | (exfalso; exact hne rfl)
          | (rw [← hab] at hbc; rw [← hab, ← hbc]; norm_num)
    have hagr2le : (predCore (truncAsOf market2 cutoff2)).agreement ≤ 1 := by
      rw [predCore_agreement]
      exact agreement_le_one _ _ _
    rw [hagr1]
    refine min_le_min ?_ le_rfl
    have hB : 0 ≤ |(predCore (truncAsOf market cutoff)).composite| * 100 := by positivity
    nlinarith [hB, hagr2le]

/-- Witness for C3 at a concrete 35-bar history with cutoff 40. -/
theorem c3_confidence_calibration_witness :
    (30 ≤ (truncAsOf exLongMarket 40).length) ∧
      ((predCore (truncAsOf exLongMarket 40)).agreement = 0 ∨
        (predCore (truncAsOf exLongMarket 40)).agreement = 1/3 ∨
        (predCore (truncAsOf exLongMarket 40)).agreement = 2/3 ∨
        (predCore (truncAsOf exLongMarket 40)).agreement = 1) :=
  ⟨by decide, (c3_confidence_calibration exLongMarket 40 (by decide)).2.2.1⟩

/-! ## C7 -/

theorem ewmAdjGo_some_nonneg (a : ℚ) (minp : ℕ) (ha : a ≤ 1) :
    ∀ (xs : List ℚ) (num den : ℚ) (cnt : ℕ), 0 ≤ num → 0 ≤ den →
      (∀ x ∈ xs, 0 ≤ x) →
      ∀ o ∈ ewmAdjGo a minp num den cnt xs, ∀ v, o = some v → 0 ≤ v := by
  intro xs
  induction xs with
  | nil =>
    intro num den cnt _ _ _ o ho
    simp [ewmAdjGo] at ho
  | cons x t ih =>
    intro num den cnt hnum hden hxs o ho v hv
    have hx : 0 ≤ x := hxs x (List.mem_cons_self x t)
    have h1a : 0 ≤ 1 - a := by linarith
    have hnum2 : 0 ≤ x + (1 - a) * num := by
      have := mul_nonneg h1a hnum
      linarith
    have hden2 : 0 ≤ 1 + (1 - a) * den := by
      have := mul_nonneg h1a hden
      linarith
    rw [ewmAdjGo] at ho
    rcases List.mem_cons.mp ho with h | h
    · by_cases hm : minp ≤ cnt + 1
      · rw [if_pos hm] at h
        rw [h] at hv
        injection hv with hv
        rw [← hv]
        exact div_nonneg hnum2 hden2
      · rw [if_neg hm] at h
        rw [h] at hv
        exact absurd hv (by simp)
    · exact ih _ _ _ hnum2 hden2 (fun y hy => hxs y (List.mem_cons_of_mem x hy)) o h v hv

theorem gainList_nonneg (xs : List ℚ) : ∀ x ∈ gainList xs, 0 ≤ x := by
  intro x hx
  rcases List.mem_map.mp hx with ⟨o, -, rfl⟩
  cases o with
  | none => norm_num
  | some d =>
    dsimp only
    split_ifs with h
    · linarith
    · norm_num

theorem lossList_nonneg (xs : List ℚ) : ∀ x ∈ lossList xs, 0 ≤ x := by
  intro x hx
  rcases List.mem_map.mp hx with ⟨o, -, rfl⟩
  cases o with
  | none => norm_num
  | some d =>
    dsimp only
    split_ifs with h
    · linarith
    · norm_num

theorem calc_rsi_bounds (cs : List ℚ) (i : ℕ) (v : ℚ)
    (h : (calc_rsi cs).getD i none = some v) : 0 ≤ v ∧ v ≤ 100 := by
  rw [List.getD_eq_getElem?_getD] at h
  cases he : (calc_rsi cs)[i]? with
  | none => rw [he] at h; simp at h
  | some o =>
    rw [he] at h
    simp only [Option.getD_some] at h
    subst h
    unfold calc_rsi at he
    obtain ⟨g?, l?, hg, hl, hf⟩ := List.getElem?_zipWith_eq_some.mp he
    cases g? with
    | none => simp at hf
    | some g =>
      cases l? with
      | none => simp at hf
      | some l =>
        dsimp only at hf
        split_ifs at hf with hl0
        injection hf with hf
        have hgmem : some g ∈ avgGain 14 cs := List.getElem?_mem hg
        have hlmem : some l ∈ avgLoss 14 cs := List.getElem?_mem hl
        have hg0 : 0 ≤ g :=
          ewmAdjGo_some_nonneg (1/(14:ℚ)) 14 (by norm_num) (gainList cs) 0 0 0
            le_rfl le_rfl (gainList_nonneg cs) (some g) hgmem g rfl
        have hl0' : 0 ≤ l :=
          ewmAdjGo_some_nonneg (1/(14:ℚ)) 14 (by norm_num) (lossList cs) 0 0 0
            le_rfl le_rfl (lossList_nonneg cs) (some l) hlmem l rfl
        have hlpos : 0 < l := lt_of_le_of_ne hl0' (Ne.symm hl0)
        have hr : 0 ≤ g / l := div_nonneg hg0 (le_of_lt hlpos)
        have hpos : (0:ℚ) < 1 + g / l := by linarith
        have hle : 100 / (1 + g / l) ≤ 100 := by
          rw [div_le_iff₀ hpos]
          nlinarith
        have hgt : 0 < 100 / (1 + g / l) := by positivity
        constructor <;> [linarith; linarith]

theorem predCore_tech_eq (data : List Bar) :
    (predCore data).tech = techNorm (data.map Bar.close) := rfl

theorem predCore_pattern_eq (data : List Bar) :
    (predCore data).pattern = patternNorm (data.map Bar.close) := rfl

theorem predCore_momentum_eq (data : List Bar) :
    (predCore data).momentum =
      momNorm (data.map Bar.high) (data.map Bar.low) (data.map Bar.close)
        (data.map Bar.volume) := rfl

theorem predCore_composite_eq (data : List Bar) :
    (predCore data).composite =
      (2/5) * (predCore data).tech + (3/10) * (predCore data).pattern +
        (3/10) * (predCore data).momentum := rfl

theorem predCore_composite_bounds (data : List Bar) :
    -1 ≤ (predCore data).composite ∧ (predCore data).composite ≤ 1 := by
  have h1l := neg_one_le_clampUnit (techScoreRaw (data.map Bar.close) / 7)
  have h1r := clampUnit_le_one (techScoreRaw (data.map Bar.close) / 7)
  have h2l := neg_one_le_clampUnit (analyzePatternsAgg (data.map Bar.close)).1
  have h2r := clampUnit_le_one (analyzePatternsAgg (data.map Bar.close)).1
  have h3l := neg_one_le_clampUnit
    (momAgg (data.map Bar.high) (data.map Bar.low) (data.map Bar.close)
      (data.map Bar.volume) / (13/2))
  have h3r := clampUnit_le_one
    (momAgg (data.map Bar.high) (data.map Bar.low) (data.map Bar.close)
      (data.map Bar.volume) / (13/2))
  rw [predCore_composite_eq, predCore_tech_eq, predCore_pattern_eq,
    predCore_momentum_eq]
  unfold techNorm patternNorm momNorm
  constructor <;> linarith

theorem predCore_confidence_bounds (data : List Bar) :
    0 ≤ (predCore data).confidence ∧ (predCore data).confidence ≤ 95 := by
  rw [predCore_confidence]
  have hagr : 0 ≤ (predCore data).agreement := by
    rw [predCore_agreement]
    positivity
  constructor
  · refine le_min ?_ (by norm_num)
    have h1 : 0 ≤ |(predCore data).composite| * 100 :=
      mul_nonneg (abs_nonneg _) (by norm_num)
    have h2 : 0 ≤ 1/2 + (predCore data).agreement / 2 := by linarith
    exact mul_nonneg h1 h2
  · exact min_le_right _ _

/-- C7 (boundedness): every defined RSI value lies in [0, 100]; each of
the three normalised block scores lies in [-1, 1]; the composite lies in
[-1, 1]; and the confidence of every returned prediction lies in [0, 95]
(both the un-rounded value and the rounded dict entry, on the success and
both error paths). -/
theorem c7_boundedness :
    (∀ (cs : List ℚ) (i : ℕ) (v : ℚ),
      (calc_rsi cs).getD i none = some v → 0 ≤ v ∧ v ≤ 100) ∧
    (∀ close : List ℚ, -1 ≤ techNorm close ∧ techNorm close ≤ 1) ∧
    (∀ close : List ℚ, -1 ≤ patternNorm close ∧ patternNorm close ≤ 1) ∧
    (∀ high low close volume : List ℚ,
      -1 ≤ momNorm high low close volume ∧ momNorm high low close volume ≤ 1) ∧
    (∀ data : List Bar,
      -1 ≤ (predCore data).composite ∧ (predCore data).composite ≤ 1) ∧
    (∀ data : List Bar,
      0 ≤ (predCore data).confidence ∧ (predCore data).confidence ≤ 95) ∧
    (∀ (market : List Bar) (cutoff : ℤ),
      0 ≤ (blind_predict market cutoff).confidence ∧
        (blind_predict market cutoff).confidence ≤ 95) := by
  refine ⟨calc_rsi_bounds, ?_, ?_, ?_, predCore_composite_bounds,
    predCore_confidence_bounds, ?_⟩
  · intro close
    exact ⟨neg_one_le_clampUnit _, clampUnit_le_one _⟩
  · intro close
    exact ⟨neg_one_le_clampUnit _, clampUnit_le_one _⟩
  · intro high low close volume
    exact ⟨neg_one_le_clampUnit _, clampUnit_le_one _⟩
  · intro market cutoff
    rcases le_or_lt 30 (truncAsOf market cutoff).length with h30 | h30
    · rw [blind_predict_success market cutoff h30]
      have hb := predCore_confidence_bounds (truncAsOf market cutoff)
      have h0 : ((0:ℤ) : ℚ) ≤ roundTo (predCore (truncAsOf market cutoff)).confidence 1 :=
        le_roundTo _ 1 0 (by push_cast; exact hb.1)
      have h95 : roundTo (predCore (truncAsOf market cutoff)).confidence 1 ≤ ((95:ℤ) : ℚ) :=
        roundTo_le _ 1 95 (by push_cast; exact hb.2)
      constructor
      · simpa using h0
      · simpa using h95
    · rcases blind_predict_failure market cutoff h30 with hf | hf <;>
        rw [hf] <;> constructor <;> norm_num [Prediction.confidence]

set_option maxRecDepth 100000 in
/-- Witness for C7: the RSI of the alternating 15-bar series at index 14
is exactly 1300/27, which the theorem places inside [0, 100]. -/
theorem c7_boundedness_witness :
    ((calc_rsi exAlt15).getD 14 none = some (1300/27)) ∧
      (0 ≤ (1300/27 : ℚ) ∧ (1300/27 : ℚ) ≤ 100) :=
  ⟨by with_unfolding_all decide,
    c7_boundedness.1 exAlt15 14 (1300/27) (by with_unfolding_all decide)⟩

/-! ## C8 -/

/-- C8 (degenerate-numeric handling): a zero average loss makes the RSI
entry NaN (no signal, never a division error), and a zero-range Stochastic
window makes %K NaN rather than dividing by zero.  Both computations are
total functions of their inputs, so neither can raise. -/
theorem c8_degenerate_numeric :
    (∀ (cs : List ℚ) (i : ℕ), (avgLoss 14 cs).getD i none = some 0 →
      (calc_rsi cs).getD i none = none) ∧
    (∀ (high low close : List ℚ) (i : ℕ) (lo hi : ℚ),
      (rollingMin 14 low).getD i none = some lo →
      (rollingMax 14 high).getD i none = some hi →
      hi = lo →
      (stochK high low close).getD i none = none) := by
  constructor
  · intro cs i h
    rw [List.getD_eq_getElem?_getD] at h ⊢
    cases he : (calc_rsi cs)[i]? with
    | none => simp
    | some o =>
      have he' := he
      unfold calc_rsi at he'
      obtain ⟨g?, l?, hg, hl, hf⟩ := List.getElem?_zipWith_eq_some.mp he'
      rw [hl] at h
      simp only [Option.getD_some] at h
      subst h
      have ho : o = none := by
        cases g? with
        | none => simpa using hf.symm
        | some g =>
          dsimp only at hf
          rw [if_pos rfl] at hf
          exact hf.symm
      rw [ho]
      rfl
  · intro high low close i lo hi hlo hhi heq
    rw [List.getD_eq_getElem?_getD] at hlo hhi ⊢
    cases he : (stochK high low close)[i]? with
    | none => simp
    | some o =>
      have he' := he
      unfold stochK at he'
      obtain ⟨c, p, hc, hp, hf⟩ := List.getElem?_zipWith_eq_some.mp he'
      obtain ⟨hp1, hp2⟩ := List.getElem?_zip_eq_some.mp hp
      rw [hp1] at hlo
      rw [hp2] at hhi
      simp only [Option.getD_some] at hlo hhi
      have ho : o = none := by
        rw [hlo, hhi] at hf
        dsimp only at hf
        rw [if_pos (by rw [heq]; ring)] at hf
        exact hf.symm
      rw [ho]
      rfl

set_option maxRecDepth 100000 in
/-- Witness for C8: a strictly rising 15-bar series has average loss
exactly 0 at index 14 (so its RSI there is NaN), and a constant 20-bar
series has a zero-range Stochastic window at index 13 (so %K is NaN). -/
theorem c8_degenerate_numeric_witness :
    ((avgLoss 14 exRising15).getD 14 none = some 0 ∧
      (calc_rsi exRising15).getD 14 none = none) ∧
    ((rollingMin 14 exFlat20).getD 13 none = some 5 ∧
      (rollingMax 14 exFlat20).getD 13 none = some 5 ∧
      (stochK exFlat20 exFlat20 exFlat20).getD 13 none = none) :=
  ⟨⟨by with_unfolding_all decide,
      c8_degenerate_numeric.1 exRising15 14 (by with_unfolding_all decide)⟩,
    ⟨by with_unfolding_all decide, by with_unfolding_all decide,
      c8_degenerate_numeric.2 exFlat20 exFlat20 exFlat20 13 5 5
        (by with_unfolding_all decide) (by with_unfolding_all decide) rfl⟩⟩

/-! ## C6 -/

theorem ewmAdjGo_length (a : ℚ) (minp : ℕ) :
    ∀ (xs : List ℚ) (num den : ℚ) (cnt : ℕ),
      (ewmAdjGo a minp num den cnt xs).length = xs.length := by
  intro xs
  induction xs with
  | nil => intro num den cnt; rfl
  | cons x t ih =>
    intro num den cnt
    rw [ewmAdjGo]
    simp [ih]

theorem diffs_go_length : ∀ (t : List ℚ) (p : ℚ), (diffs.go p t).length = t.length := by
  intro t
  induction t with
  | nil => intro p; rfl
  | cons y u ih =>
    intro p
    rw [diffs.go]
    simp [ih]

theorem diffs_length (xs : List ℚ) : (diffs xs).length = xs.length := by
  cases xs with
  | nil => rfl
  | cons x t =>
    rw [diffs]
    simp [diffs_go_length]

theorem lossList_length (xs : List ℚ) : (lossList xs).length = xs.length := by
  unfold lossList
  simp [diffs_length]

theorem gainList_length (xs : List ℚ) : (gainList xs).length = xs.length := by
  unfold gainList
  simp [diffs_length]

theorem diffs_go_pos_of_chain :
    ∀ (t : List ℚ) (p : ℚ), List.Chain' (· < ·) (p :: t) →
      ∀ o ∈ diffs.go p t, ∃ d, o = some d ∧ 0 < d := by
  intro t
  induction t with
  | nil => intro p _ o ho; simp [diffs.go] at ho
  | cons y u ih =>
    intro p hch o ho
    have h1 : p < y := (List.chain'_cons.mp hch).1
    have h2 : List.Chain' (· < ·) (y :: u) := (List.chain'_cons.mp hch).2
    rw [diffs.go] at ho
    rcases List.mem_cons.mp ho with h | h
    · exact ⟨y - p, h, by linarith⟩
    · exact ih y h2 o h

theorem lossList_of_chain (cs : List ℚ) (h : List.Chain' (· < ·) cs) :
    lossList cs = List.replicate cs.length 0 := by
  rw [List.eq_replicate_iff]
  refine ⟨lossList_length cs, ?_⟩
  intro b hb
  rcases List.mem_map.mp hb with ⟨o, ho, rfl⟩
  cases cs with
  | nil => simp [diffs] at ho
  | cons x t =>
    rw [diffs] at ho
    rcases List.mem_cons.mp ho with h' | h'
    · rw [h']
    · obtain ⟨d, rfl, hd⟩ := diffs_go_pos_of_chain t x h o h'
      dsimp only
      rw [if_neg (by linarith)]

theorem ewmAdjGo_replicate_zero_getElem (a : ℚ) (minp : ℕ) :
    ∀ (n : ℕ) (den : ℚ) (cnt j : ℕ), j < n →
      (ewmAdjGo a minp 0 den cnt (List.replicate n 0))[j]? =
        some (if minp ≤ cnt + j + 1 then some 0 else none) := by
  intro n
  induction n with
  | zero => intro den cnt j hj; omega
  | succ m ih =>
    intro den cnt j hj
    rw [List.replicate_succ, ewmAdjGo]
    have hz : (0 : ℚ) + (1 - a) * 0 = 0 := by ring
    rw [hz]
    cases j with
    | zero => simp
    | succ k =>
      have hk : k < m := by omega
      have := ih (1 + (1 - a) * den) (cnt + 1) k hk
      simp only [List.getElem?_cons_succ]
      rw [this]
      have harith : cnt + 1 + k + 1 = cnt + (k + 1) + 1 := by omega
      rw [harith]

theorem avgLoss_last_of_chain (cs : List ℚ) (h30 : 30 ≤ cs.length)
    (hmono : List.Chain' (· < ·) cs) :
    (avgLoss 14 cs)[cs.length - 1]? = some (some 0) := by
  unfold avgLoss ewmAdj
  rw [lossList_of_chain cs hmono]
  rw [ewmAdjGo_replicate_zero_getElem _ 14 cs.length 0 0 (cs.length - 1) (by omega)]
  rw [if_pos (by omega)]

/-- A decidable route to strict Chain' monotonicity. -/
theorem chain'_lt_of_getD (xs : List ℚ)
    (h : ∀ i, i < xs.length - 1 → xs.getD i 0 < xs.getD (i + 1) 0) :
    List.Chain' (· < ·) xs := by
  rw [List.chain'_iff_get]
  intro i hi
  have h1 : i < xs.length := by omega
  have h2 : i + 1 < xs.length := by omega
  have e1 : xs.get ⟨i, h1⟩ = xs.getD i 0 := by
    rw [List.getD_eq_getElem?_getD, List.getElem?_eq_getElem h1]
    rfl
  have e2 : xs.get ⟨i + 1, h2⟩ = xs.getD (i + 1) 0 := by
    rw [List.getD_eq_getElem?_getD, List.getElem?_eq_getElem h2]
    rfl
  rw [e1, e2]
  exact h i hi

/-- C6 amended: a monotonically rising Close series of at least 30 bars
has zero average loss, so the source maps the gain/loss ratio to NaN: the
final RSI value is NaN (not a value approaching 100) and the RSI sub-rule
contributes score 0 (the neutral branch) — neither a BUY signal nor the
maximum SELL-side weight. -/
theorem c6_amended (cs : List ℚ) (h30 : 30 ≤ cs.length)
    (hmono : List.Chain' (· < ·) cs) :
    lastO (calc_rsi cs) = none ∧ rsiScore cs = 0 := by
  have hlen : (calc_rsi cs).length = cs.length := by
    unfold calc_rsi avgGain avgLoss ewmAdj
    simp [List.length_zipWith, ewmAdjGo_length, gainList_length, lossList_length]
  have hgainlen : (avgGain 14 cs).length = cs.length := by
    unfold avgGain ewmAdj
    simp [ewmAdjGo_length, gainList_length]
  have hgain : ∃ g?, (avgGain 14 cs)[cs.length - 1]? = some g? := by
    have hlt : cs.length - 1 < (avgGain 14 cs).length := by omega
    exact ⟨(avgGain 14 cs)[cs.length - 1], List.getElem?_eq_getElem hlt⟩
  obtain ⟨g?, hg⟩ := hgain
  have hloss := avgLoss_last_of_chain cs h30 hmono
  have hrsi : (calc_rsi cs)[cs.length - 1]? = some none := by
    unfold calc_rsi
    rw [List.getElem?_zipWith]
    rw [hg, hloss]
    cases g? with
    | none => rfl
    | some g =>
      dsimp only
      rw [if_pos rfl]
  have hlast : lastO (calc_rsi cs) = none := by
    unfold lastO
    rw [List.getLastD_eq_getLast?, List.getLast?_eq_getElem?, hlen, hrsi]
    rfl
  refine ⟨hlast, ?_⟩
  unfold rsiScore
  rw [hlast]

set_option maxRecDepth 400000 in
/-- Counterexample to C6 as stated: for the concrete monotonically rising
30-bar Close series 1, 2, ..., 30 (which indeed has no losses), the RSI
value is NaN — it does not approach 100 — and the RSI sub-rule of the
technical score contributes 0 (the neutral branch), not the maximum
SELL-side weight -2. -/
theorem c6_counterexample :
    exRising30.length = 30 ∧ List.Chain' (· < ·) exRising30 ∧
      lastO (calc_rsi exRising30) = none ∧ rsiScore exRising30 = 0 ∧
      ¬ rsiScore exRising30 = -2 :=
  ⟨by decide, chain'_lt_of_getD exRising30 (by with_unfolding_all decide),
    by with_unfolding_all decide, by with_unfolding_all decide,
    by with_unfolding_all decide⟩

set_option maxRecDepth 400000 in
/-- Witness for the amended C6 at the rising series 1, 2, ..., 30. -/
theorem c6_amended_witness :
    (30 ≤ exRising30.length ∧ List.Chain' (· < ·) exRising30) ∧
      (lastO (calc_rsi exRising30) = none ∧ rsiScore exRising30 = 0) :=
  ⟨⟨by decide, chain'_lt_of_getD exRising30 (by with_unfolding_all decide)⟩,
    c6_amended exRising30 (by decide)
      (chain'_lt_of_getD exRising30 (by with_unfolding_all decide))⟩

/-! ## Backtest loop lemmas (C2, C9) -/

theorem evaluate_eq_none_iff (market : List Bar) (predDate actualDate : ℤ) :
    evaluate market predDate actualDate = none ↔
      (downloadRange market predDate (actualDate + 1)).length < 2 := by
  simp only [evaluate]
  split_ifs with h
  · simp [h]
  · simp [h]

theorem evaluate_eq_some_iff (market : List Bar) (predDate actualDate : ℤ)
    (h2 : 2 ≤ (downloadRange market predDate (actualDate + 1)).length) :
    evaluate market predDate actualDate = some
      { date := predDate
        predicted := (blind_predict market predDate).direction
        actual := actualDirOf
          ((downloadRange market predDate (actualDate + 1)).headD default).close
          ((downloadRange market predDate (actualDate + 1)).getLastD default).close
        actualReturnPct := roundTo
          ((((downloadRange market predDate (actualDate + 1)).getLastD default).close /
            ((downloadRange market predDate (actualDate + 1)).headD default).close - 1) * 100) 2
        hit := decide ((blind_predict market predDate).direction = actualDirOf
          ((downloadRange market predDate (actualDate + 1)).headD default).close
          ((downloadRange market predDate (actualDate + 1)).getLastD default).close)
        confidence := (blind_predict market predDate).confidence
        compositeScore := (blind_predict market predDate).compositeOut } := by
  simp only [evaluate]
  rw [if_neg (by omega)]

theorem evaluate_date (market : List Bar) (predDate actualDate : ℤ) (r : Record)
    (h : evaluate market predDate actualDate = some r) : r.date = predDate := by
  simp only [evaluate] at h
  split_ifs at h
  injection h with h
  rw [← h]

theorem mem_backtestFrom (market : List Bar) (e : ℤ) (c : ℤ) (r : Record) :
    r ∈ backtestFrom market e c ↔
      ∃ k : ℕ, c + 7 * k + 7 ≤ e ∧
        evaluate market (c + 7 * k) (c + 7 * k + 7) = some r := by
  suffices H : ∀ (n : ℕ) (c : ℤ), (e - c).toNat ≤ n →
      ∀ r : Record, (r ∈ backtestFrom market e c ↔
        ∃ k : ℕ, c + 7 * k + 7 ≤ e ∧
          evaluate market (c + 7 * k) (c + 7 * k + 7) = some r) from
    H (e - c).toNat c le_rfl r
  intro n
  induction n with
  | zero =>
    intro c hc r
    have hlt : ¬ (c + 7 ≤ e) := by omega
    rw [backtestFrom, dif_neg hlt]
    simp only [List.not_mem_nil, false_iff, not_exists]
    intro k
    rintro ⟨hk, -⟩
    have : (0:ℤ) ≤ 7 * (k:ℤ) := by positivity
    omega
  | succ m ih =>
    intro c hc r
    by_cases h7 : c + 7 ≤ e
    · rw [backtestFrom, dif_pos h7]
      have hrec := ih (c + 7) (by omega) r
      have hshift : ∀ k : ℕ, c + 7 + 7 * (k:ℤ) = c + 7 * ((k+1 : ℕ) : ℤ) := by
        intro k
        push_cast
        ring
      cases hev : evaluate market c (c + 7) with
      | some r0 =>
        simp only [List.mem_cons]
        constructor
        · rintro (rfl | h)
          · refine ⟨0, by simpa using h7, ?_⟩
            simpa using hev
          · obtain ⟨k, hk, hke⟩ := hrec.mp h
            rw [hshift k] at hk hke
            exact ⟨k + 1, by omega, hke⟩
        · rintro ⟨k, hk, hke⟩
          cases k with
          | zero =>
            left
            simp only [Nat.cast_zero, mul_zero, add_zero] at hke
            rw [hev] at hke
            injection hke with hke
            exact hke.symm
          | succ k' =>
            right
            refine hrec.mpr ⟨k', ?_, ?_⟩
            · rw [hshift k']
              omega
            · rw [hshift k']
              exact hke
      | none =>
        constructor
        · intro h
          obtain ⟨k, hk, hke⟩ := hrec.mp h
          rw [hshift k] at hk hke
          exact ⟨k + 1, by omega, hke⟩
        · rintro ⟨k, hk, hke⟩
          cases k with
          | zero =>
            simp only [Nat.cast_zero, mul_zero, add_zero] at hke
            rw [hev] at hke
            cases hke
          | succ k' =>
            refine hrec.mpr ⟨k', ?_, ?_⟩
            · rw [hshift k']
              omega
            · rw [hshift k']
              exact hke
    · rw [backtestFrom, dif_neg h7]
      simp only [List.not_mem_nil, false_iff, not_exists]
      intro k
      rintro ⟨hk, -⟩
      have : (0:ℤ) ≤ 7 * (k:ℤ) := by positivity
      omega

theorem mem_backtest (market : List Bar) (s e : ℤ) (r : Record) :
    r ∈ backtest market s e ↔
      ∃ k : ℕ, s + 7 * k + 7 ≤ e ∧
        evaluate market (s + 7 * k) (s + 7 * k + 7) = some r :=
  mem_backtestFrom market e s r

theorem mem_downloadRange_bounds (market : List Bar) (s e : ℤ) (b : Bar)
    (hb : b ∈ downloadRange market s e) : s ≤ b.date ∧ b.date < e := by
  unfold downloadRange at hb
  have := List.of_mem_filter hb
  simpa using this

theorem mem_downloadRange_of (market : List Bar) (s e : ℤ) (b : Bar)
    (hb : b ∈ market) (h1 : s ≤ b.date) (h2 : b.date < e) :
    b ∈ downloadRange market s e := by
  unfold downloadRange
  refine List.mem_filter.mpr ⟨hb, ?_⟩
  simp [h1, h2]

theorem head?_eq_of_min_date (l : List Bar)
    (hs : l.Pairwise fun a b => a.date < b.date) (b : Bar) (hb : b ∈ l)
    (hmin : ∀ x ∈ l, b.date ≤ x.date) : l.head? = some b := by
  cases l with
  | nil => cases hb
  | cons a t =>
    rcases List.mem_cons.mp hb with rfl | hbt
    · rfl
    · have h1 := (List.pairwise_cons.mp hs).1 b hbt
      have h2 := hmin a (List.mem_cons_self a t)
      exact absurd h1 (by omega)

theorem getLast?_eq_of_max_date (l : List Bar)
    (hs : l.Pairwise fun a b => a.date < b.date) (b : Bar) (hb : b ∈ l)
    (hmax : ∀ x ∈ l, x.date ≤ b.date) : l.getLast? = some b := by
  induction l with
  | nil => cases hb
  | cons a t ih =>
    cases t with
    | nil =>
      rcases List.mem_cons.mp hb with rfl | h
      · rfl
      · cases h
    | cons c u =>
      rw [List.getLast?_cons_cons]
      rcases List.mem_cons.mp hb with rfl | hbt
      · have h1 := (List.pairwise_cons.mp hs).1 c (List.mem_cons_self c u)
        have h2 := hmax c (List.mem_cons_of_mem _ (List.mem_cons_self c u))
        exact absurd h1 (by omega)
      · exact ih (List.pairwise_cons.mp hs).2 hbt
          (fun x hx => hmax x (List.mem_cons_of_mem a hx))

/-- The first bar of the outcome window is the bar dated exactly at the
window start (when the history is sorted and such a bar exists). -/
theorem window_headD (market : List Bar)
    (hsorted : market.Pairwise fun a b => a.date < b.date)
    (s e : ℤ) (b : Bar) (hb : b ∈ market) (hd : b.date = s) (hse : s < e) :
    (downloadRange market s e).headD default = b := by
  have hmem : b ∈ downloadRange market s e :=
    mem_downloadRange_of market s e b hb (by omega) (by omega)
  have hhead : (downloadRange market s e).head? = some b := by
    refine head?_eq_of_min_date _ (hsorted.filter _) b hmem ?_
    intro x hx
    have := mem_downloadRange_bounds market s e x hx
    omega
  rw [List.headD_eq_head?_getD, hhead]
  rfl

/-- The last bar of the outcome window is the bar dated exactly at the
(inclusive) window end. -/
theorem window_getLastD (market : List Bar)
    (hsorted : market.Pairwise fun a b => a.date < b.date)
    (s e : ℤ) (b : Bar) (hb : b ∈ market) (hd : b.date = e - 1) (hse : s ≤ e - 1) :
    (downloadRange market s e).getLastD default = b := by
  have hmem : b ∈ downloadRange market s e :=
    mem_downloadRange_of market s e b hb (by omega) (by omega)
  have hlast : (downloadRange market s e).getLast? = some b := by
    refine getLast?_eq_of_max_date _ (hsorted.filter _) b hmem ?_
    intro x hx
    have := mem_downloadRange_bounds market s e x hx
    omega
  rw [List.getLastD_eq_getLast?, hlast]
  rfl

/-! ## C2 -/

/-- C2 (backtest algorithm): the records of `backtest(ticker, s, e)` sit
exactly at the dates `s + 7k` with `s + 7k + 7 ≤ e` (fixed 7-day steps,
stopping once the next step passes the end); a step is dropped iff its
realized-outcome window holds fewer than 2 bars, and otherwise yields
exactly one record; each record carries the direction predicted as of its
step date, its realized direction classifies the Close at the step date
against the Close 7 days later by the ±0.5% dead-zone (when bars exist at
those dates), a record is a hit iff predicted equals actual, and the
report accuracy is hits over total (×100) across the retained records. -/
theorem c2_backtest_algorithm (market : List Bar) (s e : ℤ)
    (hpos : ∀ b ∈ market, 0 < b.close)
    (hsorted : market.Pairwise fun a b => a.date < b.date) :
    (∀ r ∈ backtest market s e, ∃ k : ℕ, r.date = s + 7 * k ∧ s + 7 * k + 7 ≤ e) ∧
    (∀ k : ℕ, s + 7 * k + 7 ≤ e →
      (((downloadRange market (s + 7 * k) (s + 7 * k + 7 + 1)).length < 2 →
        ∀ r ∈ backtest market s e, r.date ≠ s + 7 * k) ∧
      (2 ≤ (downloadRange market (s + 7 * k) (s + 7 * k + 7 + 1)).length →
        ∃ r ∈ backtest market s e, r.date = s + 7 * k))) ∧
    (∀ r ∈ backtest market s e,
      r.predicted = (blind_predict market r.date).direction ∧
      r.confidence = (blind_predict market r.date).confidence ∧
      (r.hit = true ↔ r.predicted = r.actual) ∧
      (∀ b1 ∈ market, ∀ b2 ∈ market, b1.date = r.date → b2.date = r.date + 7 →
        r.actual =
          (if 1/2 < (b2.close / b1.close - 1) * 100 then Dir.UP
           else if (b2.close / b1.close - 1) * 100 < -(1/2) then Dir.DOWN
           else Dir.FLAT))) ∧
    accuracy (backtest market s e) =
      ((backtest market s e).countP Record.hit : ℚ) /
        ((backtest market s e).length : ℚ) * 100 := by
  refine ⟨?_, ?_, ?_, rfl⟩
  · intro r hr
    obtain ⟨k, hk, hke⟩ := (mem_backtest market s e r).mp hr
    exact ⟨k, evaluate_date _ _ _ _ hke, hk⟩
  · intro k hk
    constructor
    · intro hlt r hr hdate
      obtain ⟨k', hk', hke'⟩ := (mem_backtest market s e r).mp hr
      have hdate' := evaluate_date _ _ _ _ hke'
      have hkk : k' = k := by
        rw [hdate'] at hdate
        omega
      subst hkk
      rw [(evaluate_eq_none_iff market (s + 7 * k') (s + 7 * k' + 7)).mpr hlt] at hke'
      cases hke'
    · intro h2
      have := evaluate_eq_some_iff market (s + 7 * k) (s + 7 * k + 7) h2
      exact ⟨_, (mem_backtest market s e _).mpr ⟨k, hk, this⟩, rfl⟩
  · intro r hr
    obtain ⟨k, hk, hke⟩ := (mem_backtest market s e r).mp hr
    have h2 : 2 ≤ (downloadRange market (s + 7 * k) (s + 7 * k + 7 + 1)).length := by
      by_contra hlt
      rw [(evaluate_eq_none_iff market _ _).mpr (by omega)] at hke
      cases hke
    rw [evaluate_eq_some_iff market (s + 7 * k) (s + 7 * k + 7) h2] at hke
    injection hke with hke
    subst hke
    refine ⟨rfl, rfl, ?_, ?_⟩
    · simp
    · intro b1 hb1 b2 hb2 hd1 hd2
      simp only at hd1 hd2 ⊢
      have hw1 : (downloadRange market (s + 7 * k) (s + 7 * k + 7 + 1)).headD default = b1 :=
        window_headD market hsorted _ _ b1 hb1 (by omega) (by omega)
      have hw2 : (downloadRange market (s + 7 * k) (s + 7 * k + 7 + 1)).getLastD default = b2 :=
        window_getLastD market hsorted _ _ b2 hb2 (by omega) (by omega)
      rw [hw1, hw2]
      rfl

/-- Witness for C2 at a concrete sorted ten-bar market with positive
closes, over `[0, 7]`. -/
theorem c2_backtest_algorithm_witness :
    ((∀ b ∈ exShortMarket, 0 < b.close) ∧
      exShortMarket.Pairwise fun a b => a.date < b.date) ∧
    (∀ r ∈ backtest exShortMarket 0 7,
      ∃ k : ℕ, r.date = (0:ℤ) + 7 * k ∧ (0:ℤ) + 7 * k + 7 ≤ 7) :=
  ⟨⟨by with_unfolding_all decide, by with_unfolding_all decide⟩,
    (c2_backtest_algorithm exShortMarket 0 7 (by with_unfolding_all decide)
      (by with_unfolding_all decide)).1⟩

/-! ## C9 -/

/-- C9 amended: a weekly backtest step is dropped iff its realized-outcome
window holds fewer than 2 bars; a step whose prediction lacks the 30-bar
warm-up history is NOT dropped — `evaluate_prediction` nests the
prediction's error inside the `prediction` key, so `backtest`'s
`"error" not in result` check keeps the step as a retained record with
predicted = FLAT and confidence 0, which counts as a miss unless the
realized direction is itself FLAT. -/
theorem c9_amended (market : List Bar) (d a : ℤ) :
    (evaluate market d a = none ↔
      (downloadRange market d (a + 1)).length < 2) ∧
    ((truncAsOf market d).length < 30 →
      ∀ r : Record, evaluate market d a = some r →
        r.predicted = Dir.FLAT ∧ r.confidence = 0 ∧
          (r.hit = true ↔ r.actual = Dir.FLAT)) := by
  refine ⟨evaluate_eq_none_iff market d a, ?_⟩
  intro h30 r hr
  have h2 : 2 ≤ (downloadRange market d (a + 1)).length := by
    by_contra h
    rw [(evaluate_eq_none_iff market d a).mpr (by omega)] at hr
    cases hr
  rw [evaluate_eq_some_iff market d a h2] at hr
  injection hr with hr
  subst hr
  have hfl : (blind_predict market d).direction = Dir.FLAT ∧
      (blind_predict market d).confidence = 0 := by
    rcases blind_predict_failure market d h30 with hf | hf <;> rw [hf] <;>
      exact ⟨rfl, rfl⟩
  refine ⟨hfl.1, hfl.2, ?_⟩
  simp only [decide_eq_true_eq]
  rw [hfl.1]
  exact eq_comm

set_option maxRecDepth 400000 in
/-- Counterexample to C9 as stated: on the concrete ten-bar market with
closes 50..59 over the step `[0, 7]`, the step's prediction lacks the
30-bar warm-up (it is the FLAT/0/"Insufficient data" record), yet the
backtest retains the step as a record (predicted FLAT, actual UP, a
counted miss, accuracy 0) instead of dropping it. -/
theorem c9_counterexample :
    (truncAsOf exC9market 0).length < 30 ∧
      blind_predict exC9market 0 = .failure "Insufficient data" ∧
      (backtest exC9market 0 7).length = 1 ∧
      ((backtest exC9market 0 7).headD default).date = 0 ∧
      ((backtest exC9market 0 7).headD default).predicted = Dir.FLAT ∧
      ((backtest exC9market 0 7).headD default).actual = Dir.UP ∧
      ((backtest exC9market 0 7).headD default).hit = false ∧
      accuracy (backtest exC9market 0 7) = 0 := by
  with_unfolding_all decide

/-- Witness for the amended C9 at the same concrete market. -/
theorem c9_amended_witness :
    (truncAsOf exC9market 0).length < 30 ∧
      ∀ r : Record, evaluate exC9market 0 7 = some r →
        r.predicted = Dir.FLAT ∧ r.confidence = 0 ∧
          (r.hit = true ↔ r.actual = Dir.FLAT) :=
  ⟨by decide, (c9_amended exC9market 0 7).2 (by decide)⟩

/-! ## C10 -/

theorem min?_getD_le_of_mem : ∀ (l : List ℚ) (a : ℚ), a ∈ l → l.min?.getD 0 ≤ a := by
  intro l
  induction l with
  | nil => intro a ha; cases ha
  | cons x t ih =>
    intro a ha
    rw [List.min?_cons]
    simp only [Option.getD_some]
    rcases List.mem_cons.mp ha with rfl | hat
    · cases ht : t.min? with
      | none => simp [Option.elim]
      | some m =>
        simp only [Option.elim]
        exact min_le_left a m
    · cases ht : t.min? with
      | none =>
        cases t with
        | nil => cases hat
        | cons y u => rw [List.min?_cons] at ht; cases ht
      | some m =>
        have hm := ih a hat
        rw [ht] at hm
        simp only [Option.getD_some] at hm
        simp only [Option.elim]
        exact le_trans (min_le_right x m) hm

theorem le_max?_getD_of_mem : ∀ (l : List ℚ) (a : ℚ), a ∈ l → a ≤ l.max?.getD 0 := by
  intro l
  induction l with
  | nil => intro a ha; cases ha
  | cons x t ih =>
    intro a ha
    rw [List.max?_cons]
    simp only [Option.getD_some]
    rcases List.mem_cons.mp ha with rfl | hat
    · cases ht : t.max? with
      | none => simp [Option.elim]
      | some m =>
        simp only [Option.elim]
        exact le_max_left a m
    · cases ht : t.max? with
      | none =>
        cases t with
        | nil => cases hat
        | cons y u => rw [List.max?_cons] at ht; cases ht
      | some m =>
        have hm := ih a hat
        rw [ht] at hm
        simp only [Option.getD_some] at hm
        simp only [Option.elim]
        exact le_trans hm (le_max_right x m)

/-- C10 (support/resistance precedence): whenever
`detect_support_resistance` on a series of at least 100 (positive-priced)
bars returns both a support level strictly below the current price within
2% of it and a resistance level strictly above the current price within
2% of it, the nearest-support BUY condition holds, yet the returned signal
is SELL — the resistance rule, evaluated second, overrides the support
BUY — with the confidence computed from the nearest-resistance distance:
`round(min((1 - dist/0.02) * 60, 60), 1)`. -/
theorem c10_sr_precedence (prices : List ℚ) (h100 : 100 ≤ prices.length)
    (hcur : 0 < lastQ (lastN 100 prices))
    (hs : ∃ s ∈ (detect_support_resistance prices).supports,
      s < lastQ (lastN 100 prices) ∧
        (lastQ (lastN 100 prices) - s) / lastQ (lastN 100 prices) < 1/50)
    (hr : ∃ r ∈ (detect_support_resistance prices).resistances,
      lastQ (lastN 100 prices) < r ∧
        (r - lastQ (lastN 100 prices)) / lastQ (lastN 100 prices) < 1/50) :
    (lastQ (lastN 100 prices) -
        (detect_support_resistance prices).supports.max?.getD 0) /
      lastQ (lastN 100 prices) < 1/50 ∧
    (detect_support_resistance prices).signal = Sig.SELL ∧
    (detect_support_resistance prices).confidence =
      roundTo (min ((1 -
        (((detect_support_resistance prices).resistances.min?.getD 0 -
          lastQ (lastN 100 prices)) / lastQ (lastN 100 prices)) / (1/50)) * 60) 60) 1 := by
  have hnlt : ¬ (prices.length < 100) := by omega
  by_cases hemp : ((srLocalMins (lastN 100 prices)).isEmpty ∧
      (srLocalMaxs (lastN 100 prices)).isEmpty)
  · exfalso
    simp only [detect_support_resistance, if_neg hnlt, if_pos hemp] at hs
    simp at hs
  · simp only [detect_support_resistance, if_neg hnlt, if_neg hemp] at hs hr ⊢
    obtain ⟨s, hsmem, hslt, hsdist⟩ := hs
    obtain ⟨r, hrmem, hrlt, hrdist⟩ := hr
    have hSne : cluster_levels ((srLocalMins (lastN 100 prices)).filter
        fun l => decide (l < lastQ (lastN 100 prices))) 3 ≠ [] :=
      List.ne_nil_of_mem hsmem
    have hRne : cluster_levels ((srLocalMaxs (lastN 100 prices)).filter
        fun l => decide (lastQ (lastN 100 prices) < l)) 3 ≠ [] :=
      List.ne_nil_of_mem hrmem
    have hns := le_max?_getD_of_mem _ s hsmem
    have hnr := min?_getD_le_of_mem _ r hrmem
    have hsdist2 : (lastQ (lastN 100 prices) -
        ((cluster_levels ((srLocalMins (lastN 100 prices)).filter
          fun l => decide (l < lastQ (lastN 100 prices))) 3).max?.getD 0)) /
        lastQ (lastN 100 prices) < 1/50 := by
      refine lt_of_le_of_lt ?_ hsdist
      exact div_le_div_of_nonneg_right (by linarith) hcur.le
    have hrdist2 : (((cluster_levels ((srLocalMaxs (lastN 100 prices)).filter
          fun l => decide (lastQ (lastN 100 prices) < l)) 3).min?.getD 0) -
        lastQ (lastN 100 prices)) / lastQ (lastN 100 prices) < 1/50 := by
      refine lt_of_le_of_lt ?_ hrdist
      exact div_le_div_of_nonneg_right (by linarith) hcur.le
    refine ⟨hsdist2, ?_, ?_⟩
    · rw [if_pos hRne, if_pos hrdist2]
    · rw [if_pos hRne, if_pos hrdist2]

set_option maxRecDepth 1000000 in
/-- Witness for C10: the concrete 100-bar series with a support cluster at
99 and a resistance cluster at 101 around the current price 100; both are
within 2%, and the theorem yields the SELL override. -/
theorem c10_sr_precedence_witness :
    ((100 ≤ exSR100.length) ∧ (0 < lastQ (lastN 100 exSR100)) ∧
      (∃ s ∈ (detect_support_resistance exSR100).supports,
        s < lastQ (lastN 100 exSR100) ∧
          (lastQ (lastN 100 exSR100) - s) / lastQ (lastN 100 exSR100) < 1/50) ∧
      (∃ r ∈ (detect_support_resistance exSR100).resistances,
        lastQ (lastN 100 exSR100) < r ∧
          (r - lastQ (lastN 100 exSR100)) / lastQ (lastN 100 exSR100) < 1/50)) ∧
    ((detect_support_resistance exSR100).signal = Sig.SELL ∧
      (detect_support_resistance exSR100).confidence =
        roundTo (min ((1 -
          (((detect_support_resistance exSR100).resistances.min?.getD 0 -
            lastQ (lastN 100 exSR100)) / lastQ (lastN 100 exSR100)) / (1/50)) * 60) 60) 1) :=
  ⟨⟨by decide, by with_unfolding_all decide, by with_unfolding_all decide,
      by with_unfolding_all decide⟩,
    (c10_sr_precedence exSR100 (by decide) (by with_unfolding_all decide)
      (by with_unfolding_all decide) (by with_unfolding_all decide)).2⟩

end Sentinel
